import Mathlib

/-!
Shallow embedding of the `GameSession` class of the `last-of-guss` repository
(server-side real-time multiplayer simulation, `src/unnamed/part_003`).

Conventions of the embedding:
* JavaScript numbers are modelled as rationals (`ℚ`); timestamps (`Date.now()`)
  are rationals passed explicitly as a `now` argument wherever the source calls
  `Date.now()`.
* The source compares Euclidean distances (`Math.sqrt d2 < r`, `speed > MAX_SPEED`
  with `speed = Math.sqrt d2 / dt`).  Since `Real.sqrt` is monotone on
  nonnegative arguments, every such comparison is translated to the equivalent
  comparison of squared quantities; the translation is noted at each site,
  including the JavaScript `Infinity`/`NaN` corner cases for `dt ≤ 0`.
* JavaScript `Map`s (insertion-ordered, unique keys) are modelled as `List`s;
  `Map.get` is `find?` on the key, `Map.set` with a fresh key is `++ [x]`, and
  in-place mutation of a found entry is a `map` that rewrites the entry with
  the matching key (equivalent for key-unique lists).
* Broadcast messages and `setTimeout` calls are modelled as an explicit list of
  emitted `GameEvent`s (the respawn timer appears as `scheduleRespawn`).
-/

namespace LastOfGuss

/-- 3D vector (`Vec3` of `types.js`). -/
structure Vec3 where
  x : ℚ
  y : ℚ
  z : ℚ
deriving DecidableEq, Repr

instance : Inhabited Vec3 := ⟨⟨0, 0, 0⟩⟩

/-- 2D vector (`Vec2` of `types.js`), used for rotation (yaw/pitch). -/
structure Vec2 where
  x : ℚ
  y : ℚ
deriving DecidableEq, Repr

/-- Player record held by the server (`interface ServerPlayer`).  The socket
handle is omitted: it never influences the simulation state. -/
structure ServerPlayer where
  id : String
  name : String
  position : Vec3
  rotation : Vec2
  velocity : Vec3
  lastUpdateTime : ℚ
  health : ℚ
  isAlive : Bool
  weaponId : String
  kills : ℕ
  deaths : ℕ
  spawnProtectionUntil : ℚ
deriving DecidableEq, Repr

/-- Server-side projectile (`interface ServerProjectile`). -/
structure ServerProjectile where
  id : String
  ownerId : String
  position : Vec3
  velocity : Vec3
  createdAt : ℚ
  lifetime : ℚ
deriving DecidableEq, Repr

/-- Match lifecycle states (`enum MatchState`). -/
inductive MatchState where
  | waiting
  | countdown
  | active
  | finished
deriving DecidableEq, Repr

/-- Numeric rank of a match state along the forward-only lifecycle. -/
def MatchState.rank : MatchState → ℕ
  | .waiting => 0
  | .countdown => 1
  | .active => 2
  | .finished => 3

/-- Scoreboard entry built by `endMatch`. -/
structure ScoreEntry where
  playerId : String
  playerName : String
  kills : ℕ
  deaths : ℕ
  placement : ℕ
deriving DecidableEq, Repr

/-- Outbound effects of the session: broadcast messages plus the one-shot
respawn timer started by `setTimeout(() => this.respawnPlayer(id), ...)`. -/
inductive GameEvent where
  | welcome (playerId playerName : String)
  | playerJoin (playerId playerName : String)
  | playerLeave (playerId : String)
  | damage (victimId attackerId : String) (dmg newHealth : ℚ)
  | death (victimId killerId : String)
  | scheduleRespawn (playerId : String)
  | respawn (playerId : String) (position : Vec3)
  | matchCountdown (countdown : ℚ)
  | matchStart (duration startTime endTime : ℚ)
  | matchEnd (winnerId winnerName : Option String) (scoreboard : List ScoreEntry)
deriving DecidableEq, Repr

/-- Session state (`class GameSession`); the tick timer handle and the history
buffer (unused by the combat path) are omitted. -/
structure Session where
  sessionId : String
  players : List ServerPlayer
  projectiles : List ServerProjectile
  projectileIdCounter : ℕ
  tick : ℕ
  matchState : MatchState
  matchDuration : ℚ
  matchStartTime : ℚ
  matchEndTime : ℚ
  countdownStartTime : ℚ
deriving DecidableEq, Repr

-- Sanity check constants
def MAX_SPEED : ℚ := 12
def MAX_TELEPORT : ℚ := 5
def MAX_UPDATE_INTERVAL : ℚ := 2

-- Combat constants
def PLAYER_HITBOX_RADIUS : ℚ := 2/5
def PLAYER_HEIGHT : ℚ := 9/5
def RESPAWN_DELAY : ℚ := 3000
def SPAWN_PROTECTION_DURATION : ℚ := 2000

-- Projectile constants
def PROJECTILE_SPEED : ℚ := 25
def PROJECTILE_LIFETIME : ℚ := 5
def PROJECTILE_HITBOX_RADIUS : ℚ := 1/2
def PROJECTILE_DAMAGE : ℚ := 25

def COUNTDOWN_DURATION : ℚ := 5000

/-- Squared Euclidean distance between two points. -/
def distSq (a b : Vec3) : ℚ :=
  (b.x - a.x) ^ 2 + (b.y - a.y) ^ 2 + (b.z - a.z) ^ 2

/-- Position/rotation/velocity sample sent by the client (`PositionUpdate`). -/
structure PositionUpdate where
  position : Vec3
  rotation : Vec2
  velocity : Vec3
  timestamp : ℚ
deriving DecidableEq, Repr

/-- Fire command sent by the client (`FireCommand`). -/
structure FireCommand where
  timestamp : ℚ
  rayOrigin : Vec3
  rayDir : Vec3
  weaponId : String
deriving DecidableEq, Repr

/-- Arena bounds used by `validateMovement` for the reported player position
(the source rejects when `x∉[-7.5,7.5]`, `z∉[-21.5,21.5]` or `y∉[0.5,5]`). -/
def inBoundsPlayer (v : Vec3) : Prop :=
  -(15/2) ≤ v.x ∧ v.x ≤ 15/2 ∧ -(43/2) ≤ v.z ∧ v.z ≤ 43/2 ∧ 1/2 ≤ v.y ∧ v.y ≤ 5

instance (v : Vec3) : Decidable (inBoundsPlayer v) := by
  unfold inBoundsPlayer; infer_instance

/-- `GameSession.validateMovement`.  Returns the accept/reject verdict together
with the (possibly updated) player: the lag branch (`dt > MAX_UPDATE_INTERVAL`)
resets `player.lastUpdateTime` before accepting.

The source computes `distance = Math.sqrt(distSq)` and `speed = distance / dt`
and rejects when `speed > MAX_SPEED`.  That comparison is translated exactly:
for `dt > 0` it is `distSq > (MAX_SPEED*dt)^2`; for `dt = 0` the JS quotient is
`Infinity` (when `distance > 0`, comparison true) or `NaN` (when
`distance = 0`, comparison false), i.e. `distSq > 0`; for `dt < 0` the quotient
is nonpositive and the comparison is false.  The teleport comparison
`distance > MAX_TELEPORT` is likewise `distSq > MAX_TELEPORT^2`. -/
def speedExceeded (dt d2 : ℚ) : Prop :=
  (0 < dt ∧ (MAX_SPEED * dt) ^ 2 < d2) ∨ (dt = 0 ∧ 0 < d2)

instance (dt d2 : ℚ) : Decidable (speedExceeded dt d2) := by
  unfold speedExceeded; infer_instance

/-- The rejection condition of `validateMovement` below the lag branch: the
source performs six consecutive checks, each of which logs and `return false`s
— i.e. the update is rejected exactly when at least one check fires.  In
order: max speed, teleport (`distance > MAX_TELEPORT`), and the three per-axis
world-bounds range checks. -/
def movementRejected (player : ServerPlayer) (update : PositionUpdate)
    (dt : ℚ) : Prop :=
  let dx := update.position.x - player.position.x
  let dy := update.position.y - player.position.y
  let dz := update.position.z - player.position.z
  let d2 := dx * dx + dy * dy + dz * dz
  speedExceeded dt d2 ∨ MAX_TELEPORT ^ 2 < d2 ∨
    update.position.x < -(15/2) ∨ (15/2) < update.position.x ∨
    update.position.z < -(43/2) ∨ (43/2) < update.position.z ∨
    update.position.y < 1/2 ∨ 5 < update.position.y

instance (player : ServerPlayer) (update : PositionUpdate) (dt : ℚ) :
    Decidable (movementRejected player update dt) := by
  unfold movementRejected; infer_instance

def validateMovement (player : ServerPlayer) (update : PositionUpdate)
    (now : ℚ) : Bool × ServerPlayer :=
  let dt := (now - player.lastUpdateTime) / 1000
  -- Timeout check (client disconnected/lagging badly): allow but reset time
  if MAX_UPDATE_INTERVAL < dt then
    (true, { player with lastUpdateTime := now })
  else if movementRejected player update dt then (false, player)
  else (true, player)

/-- The per-update body of the `position_batch` loop in
`GameSession.handlePlayerMessage`: validate, and on acceptance overwrite
position/rotation/velocity and stamp `lastUpdateTime = Date.now()`. -/
def applyPositionUpdate (player : ServerPlayer) (update : PositionUpdate)
    (now : ℚ) : ServerPlayer :=
  let v := validateMovement player update now
  if v.1 then
    { v.2 with
      position := update.position
      rotation := update.rotation
      velocity := update.velocity
      lastUpdateTime := now }
  else v.2

/-- The `position_batch` handler applies the updates of a batch in order. -/
def handlePositionBatch (player : ServerPlayer) (updates : List PositionUpdate)
    (now : ℚ) : ServerPlayer :=
  updates.foldl (fun p u => applyPositionUpdate p u now) player

/-- `this.players.get(id)` on the insertion-ordered player list. -/
def getPlayer (players : List ServerPlayer) (playerId : String) :
    Option ServerPlayer :=
  players.find? (fun p => p.id = playerId)

/-- `GameSession.handleFireCommand`: lookup the shooter, bail out when absent
or dead, otherwise create one projectile at `cmd.rayOrigin` whose velocity is
`rayDir` scaled componentwise by `PROJECTILE_SPEED` (the source does not
normalize `rayDir`). -/
def handleFireCommand (s : Session) (shooterId : String) (cmd : FireCommand)
    (now : ℚ) : Session :=
  match getPlayer s.players shooterId with
  | none => s
  | some shooter =>
    if shooter.isAlive then
      let projectileId :=
        s.sessionId ++ "_" ++ shooterId ++ "_" ++ toString s.projectileIdCounter
      let projectile : ServerProjectile :=
        { id := projectileId
          ownerId := shooterId
          position := cmd.rayOrigin
          velocity :=
            ⟨cmd.rayDir.x * PROJECTILE_SPEED,
             cmd.rayDir.y * PROJECTILE_SPEED,
             cmd.rayDir.z * PROJECTILE_SPEED⟩
          createdAt := now
          lifetime := PROJECTILE_LIFETIME }
      { s with
        projectiles := s.projectiles ++ [projectile]
        projectileIdCounter := s.projectileIdCounter + 1 }
    else s

/-- `GameSession.distanceToPlayerCapsule`, squared.  The capsule axis is
`top - bottom = (0, height, 0)`; the projection of the point onto the axis is
clamped to `[0,1]` and the straight-line distance to the clamped point is
returned.  The source compares the resulting distance with
`PROJECTILE_HITBOX_RADIUS + PLAYER_HITBOX_RADIUS`; we return the squared
distance and compare with the squared radius sum (equivalent, both sides
nonnegative). -/
def distSqToPlayerCapsule (point playerPos : Vec3) (height : ℚ) : ℚ :=
  let axis : Vec3 := ⟨0, height, 0⟩
  let btp : Vec3 :=
    ⟨point.x - playerPos.x, point.y - playerPos.y, point.z - playerPos.z⟩
  let axisDotAxis := axis.x * axis.x + axis.y * axis.y + axis.z * axis.z
  let projection :=
    (btp.x * axis.x + btp.y * axis.y + btp.z * axis.z) / axisDotAxis
  let t := max 0 (min 1 projection)
  let closest : Vec3 :=
    ⟨playerPos.x + axis.x * t, playerPos.y + axis.y * t, playerPos.z + axis.z * t⟩
  (point.x - closest.x) ^ 2 + (point.y - closest.y) ^ 2 + (point.z - closest.z) ^ 2

/-- The collision test of `updateProjectiles`:
`distance < PROJECTILE_HITBOX_RADIUS + PLAYER_HITBOX_RADIUS`. -/
def projectileHits (projPos : Vec3) (pl : ServerPlayer) : Prop :=
  distSqToPlayerCapsule projPos pl.position PLAYER_HEIGHT <
    (PROJECTILE_HITBOX_RADIUS + PLAYER_HITBOX_RADIUS) ^ 2

instance (projPos : Vec3) (pl : ServerPlayer) : Decidable (projectileHits projPos pl) := by
  unfold projectileHits; infer_instance

/-- World-bounds test for projectiles in `updateProjectiles`
(`x∉[-7.5,7.5] ∨ y∉[0,5] ∨ z∉[-21.5,21.5]`). -/
def projectileOutOfBounds (p : Vec3) : Prop :=
  p.x < -(15/2) ∨ (15/2) < p.x ∨ p.y < 0 ∨ 5 < p.y ∨ p.z < -(43/2) ∨ (43/2) < p.z

instance (p : Vec3) : Decidable (projectileOutOfBounds p) := by
  unfold projectileOutOfBounds; infer_instance

/-- Why a projectile id was pushed onto `toRemove` during a tick. -/
inductive RemovalCause where
  | expired
  | hitPlayer (victimId : String)
  | outOfBounds
deriving DecidableEq, Repr

/-- The player scan of `updateProjectiles` for one projectile: iterate the
players in insertion order, skipping the owner, dead players and players whose
spawn protection is still running (`now < spawnProtectionUntil`), and stop at
the first player whose capsule the projectile overlaps (the `hitPlayer` flag
makes the source skip every later player once a hit happened). -/
def scanVictim (now : ℚ) (proj : ServerProjectile) :
    List ServerPlayer → Option ServerPlayer
  | [] => none
  | pl :: rest =>
    if pl.id = proj.ownerId ∨ pl.isAlive = false then scanVictim now proj rest
    else if now < pl.spawnProtectionUntil then scanVictim now proj rest
    else if projectileHits proj.position pl then some pl
    else scanVictim now proj rest

/-- The victim's health after one projectile hit
(`Math.max(0, health - PROJECTILE_DAMAGE)`). -/
def hitHealth (victim : ServerPlayer) : ℚ :=
  max 0 (victim.health - PROJECTILE_DAMAGE)

/-- How one player map entry changes when `victim` is hit by a projectile of
`ownerId`: the victim entry takes `hitHealth` damage and on a kill
(`health <= 0`) its alive flag drops and its death count rises; on a kill the
shooter entry (if still present) gains a kill; everyone else is untouched. -/
def applyHitFun (ownerId : String) (victim : ServerPlayer)
    (q : ServerPlayer) : ServerPlayer :=
  if q.id = victim.id then
    { q with
      health := hitHealth victim
      isAlive := if hitHealth victim ≤ 0 then false else q.isAlive
      deaths := if hitHealth victim ≤ 0 then q.deaths + 1 else q.deaths }
  else if hitHealth victim ≤ 0 ∧ q.id = ownerId then { q with kills := q.kills + 1 }
  else q

/-- The damage resolution of `updateProjectiles` once a victim was found:
subtract the fixed damage with a floor of 0; on a kill flip the alive flag,
bump the victim's death count and the shooter's kill count (when the shooter
`this.players.get(ownerId)` still exists), broadcast the death event and start
the respawn timer; always broadcast a damage event with the new health. -/
def applyHit (ownerId : String) (victim : ServerPlayer)
    (players : List ServerPlayer) : List ServerPlayer × List GameEvent :=
  let killEvents : List GameEvent :=
    if hitHealth victim ≤ 0 then
      [.death victim.id ownerId, .scheduleRespawn victim.id]
    else []
  (players.map (applyHitFun ownerId victim),
   killEvents ++ [.damage victim.id ownerId PROJECTILE_DAMAGE (hitHealth victim)])

/-- The body of the `projectiles.forEach` loop in `updateProjectiles` for one
projectile: integrate position, decrement lifetime, and either mark expired
(skipping every further check), or resolve at most one player hit followed by
the world-bounds exit test (which runs even after a hit).  Returns the updated
players, the updated projectile, the list of `toRemove` markings pushed for
this projectile (in push order) and the emitted events. -/
def processProjectile (now dt : ℚ) (players : List ServerPlayer)
    (proj : ServerProjectile) :
    List ServerPlayer × ServerProjectile × List RemovalCause × List GameEvent :=
  let pos' : Vec3 :=
    ⟨proj.position.x + proj.velocity.x * dt,
     proj.position.y + proj.velocity.y * dt,
     proj.position.z + proj.velocity.z * dt⟩
  let proj' := { proj with position := pos', lifetime := proj.lifetime - dt }
  -- Check if expired (`return` skips the collision and bounds checks)
  if proj.lifetime - dt ≤ 0 then (players, proj', [.expired], [])
  else
    match scanVictim now proj' players with
    | none =>
      if projectileOutOfBounds pos' then (players, proj', [.outOfBounds], [])
      else (players, proj', [], [])
    | some victim =>
      if projectileOutOfBounds pos' then
        ((applyHit proj.ownerId victim players).1, proj',
         [.hitPlayer victim.id, .outOfBounds],
         (applyHit proj.ownerId victim players).2)
      else
        ((applyHit proj.ownerId victim players).1, proj', [.hitPlayer victim.id],
         (applyHit proj.ownerId victim players).2)

/-- `projectiles.forEach` in insertion order, threading the mutated player
list through the iterations and collecting, per projectile, its updated state
and its `toRemove` markings. -/
def runProjectiles (now dt : ℚ) (players : List ServerPlayer) :
    List ServerProjectile →
    List ServerPlayer × List (ServerProjectile × List RemovalCause) × List GameEvent
  | [] => (players, [], [])
  | proj :: rest =>
    let step := processProjectile now dt players proj
    let next := runProjectiles now dt step.1 rest
    (next.1, (step.2.1, step.2.2.1) :: next.2.1, step.2.2.2 ++ next.2.2)

/-- Result of one `updateProjectiles` call. -/
structure ProjTickResult where
  players : List ServerPlayer
  projectiles : List ServerProjectile
  removalLog : List (ServerProjectile × List RemovalCause)
  events : List GameEvent
deriving DecidableEq, Repr

/-- `GameSession.updateProjectiles`: run all projectiles, then delete every
projectile that was pushed onto `toRemove` (duplicate pushes delete the same
map key, so keeping exactly the unmarked projectiles is the resulting map). -/
def updateProjectiles (now dt : ℚ) (players : List ServerPlayer)
    (projectiles : List ServerProjectile) : ProjTickResult :=
  let r := runProjectiles now dt players projectiles
  { players := r.1
    projectiles := (r.2.1.filter (fun pc => pc.2 = [])).map Prod.fst
    removalLog := r.2.1
    events := r.2.2 }

-- Match state machine ---------------------------------------------------

/-- `GameSession.startCountdown`: enter `countdown`, record the countdown
start, reset all kill/death counters, broadcast the countdown event. -/
def startCountdown (s : Session) (now : ℚ) : Session × List GameEvent :=
  ({ s with
     matchState := .countdown
     countdownStartTime := now
     players := s.players.map (fun p => { p with kills := 0, deaths := 0 }) },
   [.matchCountdown (COUNTDOWN_DURATION / 1000)])

/-- `GameSession.startMatch`: enter `active` and record the match clock. -/
def startMatch (s : Session) (now : ℚ) : Session × List GameEvent :=
  ({ s with
     matchState := .active
     matchStartTime := now
     matchEndTime := now + s.matchDuration },
   [.matchStart s.matchDuration now (now + s.matchDuration)])

/-- Projection of a player into a scoreboard entry (placement set below). -/
def toScoreEntry (p : ServerPlayer) : ScoreEntry :=
  { playerId := p.id, playerName := p.name, kills := p.kills, deaths := p.deaths
    placement := 0 }

/-- Stable descending sort by kill count.  `Array.prototype.sort` with the
comparator `(a, b) => b.kills - a.kills` is a stable sort (required since
ES2019): entries with more kills come first and entries with equal kills keep
their original relative order.  `insertScore` places an element after every
element with strictly more kills and before everything else, which computes
exactly that stable sort. -/
def insertScore (e : ScoreEntry) : List ScoreEntry → List ScoreEntry
  | [] => [e]
  | f :: rest =>
    if e.kills < f.kills then f :: insertScore e rest else e :: f :: rest

/-- Stable sort of a whole scoreboard by kills, descending. -/
def sortScores : List ScoreEntry → List ScoreEntry
  | [] => []
  | e :: rest => insertScore e (sortScores rest)

/-- `scoreboard.forEach((entry, index) => entry.placement = index + 1)`. -/
def assignPlacements : ℕ → List ScoreEntry → List ScoreEntry
  | _, [] => []
  | n, e :: rest => { e with placement := n + 1 } :: assignPlacements (n + 1) rest

/-- The scoreboard built by `endMatch` from the current players. -/
def scoreboardOf (players : List ServerPlayer) : List ScoreEntry :=
  assignPlacements 0 (sortScores (players.map toScoreEntry))

/-- `GameSession.endMatch`: enter `finished`, build the scoreboard, take the
first entry as winner (`null` only when the scoreboard is empty) and broadcast
the match-end event. -/
def endMatch (s : Session) : Session × List GameEvent :=
  let scoreboard := scoreboardOf s.players
  let winner := scoreboard.head?
  ({ s with matchState := .finished },
   [.matchEnd (winner.map (fun w => w.playerId)) (winner.map (fun w => w.playerName))
      scoreboard])

/-- `GameSession.updateMatchState`: the per-tick state transition function. -/
def updateMatchState (s : Session) (now : ℚ) : Session × List GameEvent :=
  match s.matchState with
  | .waiting =>
    -- Start countdown when we have 2+ players
    if 2 ≤ s.players.length then startCountdown s now else (s, [])
  | .countdown =>
    -- Check if countdown finished
    if s.countdownStartTime + COUNTDOWN_DURATION ≤ now then startMatch s now
    else (s, [])
  | .active =>
    -- Check if match time expired
    if s.matchEndTime ≤ now then endMatch s else (s, [])
  | .finished => (s, [])

-- Spawn selection --------------------------------------------------------

/-- The fixed spawn candidate list (`SPAWN_POINTS`). -/
def SPAWN_POINTS : List Vec3 :=
  [⟨-6, 1, -18⟩, ⟨6, 1, -18⟩, ⟨-6, 1, 18⟩, ⟨6, 1, 18⟩,
   ⟨-3, 1, 0⟩, ⟨3, 1, 0⟩, ⟨0, 1, -10⟩, ⟨0, 1, 10⟩]

/-- `d2 < acc` where `acc` started as `Infinity` (`none`). -/
def ltInf (d2 : ℚ) (acc : Option ℚ) : Bool :=
  match acc with
  | none => true
  | some m => decide (d2 < m)

/-- `a > b` on `Option ℚ` where `none` plays JavaScript's `Infinity`
(`Infinity > Infinity` is false). -/
def gtInf (a b : Option ℚ) : Bool :=
  match a, b with
  | none, none => false
  | none, some _ => true
  | some _, none => false
  | some x, some y => decide (y < x)

/-- The inner loop of `getSpawnPoint`: minimum squared distance from a spawn
candidate to any alive player (`none` = `Infinity` when no player is alive).
The source compares unsquared distances; min/argmin are unchanged by
squaring. -/
def minDistSqToAlive (players : List ServerPlayer) (sp : Vec3) : Option ℚ :=
  players.foldl
    (fun acc p =>
      if p.isAlive = false then acc
      else
        let d2 := distSq p.position sp
        if ltInf d2 acc then some d2 else acc)
    none

/-- `GameSession.getSpawnPoint`: first spawn point when the session has no
players, otherwise the candidate whose minimum (squared) distance to the alive
players strictly exceeds the running maximum (initially `0`), scanning the
fixed candidate list in order — i.e. the earliest max–min candidate. -/
def getSpawnPoint (players : List ServerPlayer) : Vec3 :=
  if players.length = 0 then SPAWN_POINTS.headI
  else
    (SPAWN_POINTS.foldl
      (fun acc sp =>
        if gtInf (minDistSqToAlive players sp) acc.2 then
          (sp, minDistSqToAlive players sp)
        else acc)
      (SPAWN_POINTS.headI, some 0)).1

-- Join / leave / respawn --------------------------------------------------

/-- `GameSession.addPlayer`: spawn position from `getSpawnPoint` (computed
before the player is inserted), full health, default weapon, spawn protection
window; the new entry is appended (`Map.set` with a fresh key). -/
def addPlayer (s : Session) (playerId playerName : String) (now : ℚ) :
    Session × List GameEvent :=
  let spawnPos := getSpawnPoint s.players
  let player : ServerPlayer :=
    { id := playerId
      name := playerName
      position := spawnPos
      rotation := ⟨0, 0⟩
      velocity := ⟨0, 0, 0⟩
      lastUpdateTime := now
      health := 100
      isAlive := true
      weaponId := "rifle"
      kills := 0
      deaths := 0
      spawnProtectionUntil := now + SPAWN_PROTECTION_DURATION }
  ({ s with players := s.players ++ [player] },
   [.welcome playerId playerName, .playerJoin playerId playerName])

/-- `GameSession.respawnPlayer`: no-op when the player has left; otherwise
restore health/alive/protection first, then relocate via `getSpawnPoint`
(evaluated on the already-revived player list, as in the source) and broadcast
the respawn event. -/
def respawnPlayer (s : Session) (playerId : String) (now : ℚ) :
    Session × List GameEvent :=
  match getPlayer s.players playerId with
  | none => (s, [])
  | some _ =>
    let players1 := s.players.map (fun p =>
      if p.id = playerId then
        { p with
          health := 100
          isAlive := true
          spawnProtectionUntil := now + SPAWN_PROTECTION_DURATION }
      else p)
    let spawnPos := getSpawnPoint players1
    let players2 := players1.map (fun p =>
      if p.id = playerId then
        { p with position := spawnPos, rotation := ⟨0, 0⟩, velocity := ⟨0, 0, 0⟩ }
      else p)
    ({ s with players := players2 }, [.respawn playerId spawnPos])

/-- Messages handled by `GameSession.handlePlayerMessage`. -/
inductive ClientMessage where
  | positionBatch (updates : List PositionUpdate)
  | fire (cmd : FireCommand)

/-- `GameSession.handlePlayerMessage`: ignore messages from unknown players;
apply a position batch to the sender's map entry; delegate fire commands. -/
def handlePlayerMessage (s : Session) (playerId : String) (msg : ClientMessage)
    (now : ℚ) : Session :=
  match getPlayer s.players playerId with
  | none => s
  | some _ =>
    match msg with
    | .positionBatch updates =>
      { s with
        players := s.players.map (fun p =>
          if p.id = playerId then handlePositionBatch p updates now else p) }
    | .fire cmd => handleFireCommand s playerId cmd now

-- Specification-side predicates -------------------------------------------

/-- The data-model invariant for a player: health in `[0,100]` and the alive
flag true exactly when health is positive. -/
def PlayerInv (p : ServerPlayer) : Prop :=
  0 ≤ p.health ∧ p.health ≤ 100 ∧ (p.isAlive = true ↔ 0 < p.health)

instance (p : ServerPlayer) : Decidable (PlayerInv p) := by
  unfold PlayerInv; infer_instance

/-- Per-tick life transition of one player: the respawn-schedule count equals
one exactly for a true→false flip of the alive flag, and a dead player is
never brought back by the projectile tick. -/
def LifeStep (before after : Bool) (cnt : ℕ) : Prop :=
  cnt = (if before = true ∧ after = false then 1 else 0) ∧
    (before = false → after = false)

instance (a b : Bool) (c : ℕ) : Decidable (LifeStep a b c) := by
  unfold LifeStep; infer_instance

/-- Number of respawn timers scheduled for `pid` in an event list. -/
def respawnCount (evs : List GameEvent) (pid : String) : ℕ :=
  evs.countP (fun e =>
    match e with
    | .scheduleRespawn j => j = pid
    | _ => false)

/-- Squared norm of a vector. -/
def normSq (v : Vec3) : ℚ := v.x ^ 2 + v.y ^ 2 + v.z ^ 2

/-- `v = normalize(d) * s`, expressed in rational arithmetic: `v` is a
nonnegative multiple of `d` whose squared norm is `s^2`.  For `d ≠ 0` and
`s > 0` this holds exactly when `v` equals `d` divided by its Euclidean norm
and scaled by `s`. -/
def IsNormTimes (d v : Vec3) (s : ℚ) : Prop :=
  normSq v = s ^ 2 ∧ ∃ k : ℚ, 0 ≤ k ∧ v = ⟨k * d.x, k * d.y, k * d.z⟩

/-- Data carried by a scoreboard entry apart from the placement. -/
def entryData (e : ScoreEntry) : String × String × ℕ × ℕ :=
  (e.playerId, e.playerName, e.kills, e.deaths)

-- Concrete fixtures used to evaluate the embedding on explicit inputs --------

/-- A player who last reported at time 0, standing at the origin spawn. -/
def cexPlayer : ServerPlayer :=
  { id := "p1", name := "P1", position := ⟨0, 1, 0⟩, rotation := ⟨0, 0⟩,
    velocity := ⟨0, 0, 0⟩, lastUpdateTime := 0, health := 100, isAlive := true,
    weaponId := "rifle", kills := 0, deaths := 0, spawnProtectionUntil := 0 }

/-- An update far outside the arena, reported after a 3 s gap. -/
def cexUpdate : PositionUpdate :=
  { position := ⟨100, 100, 100⟩, rotation := ⟨0, 0⟩, velocity := ⟨0, 0, 0⟩,
    timestamp := 3000 }

/-- Shooter fixture for the combat scenarios. -/
def plA : ServerPlayer :=
  { id := "a", name := "A", position := ⟨0, 1, 0⟩, rotation := ⟨0, 0⟩,
    velocity := ⟨0, 0, 0⟩, lastUpdateTime := 0, health := 100, isAlive := true,
    weaponId := "rifle", kills := 0, deaths := 0, spawnProtectionUntil := 0 }

/-- A healthy victim standing just inside the arena wall. -/
def plB : ServerPlayer :=
  { id := "b", name := "B", position := ⟨37/5, 1, 0⟩, rotation := ⟨0, 0⟩,
    velocity := ⟨0, 0, 0⟩, lastUpdateTime := 0, health := 100, isAlive := true,
    weaponId := "rifle", kills := 0, deaths := 0, spawnProtectionUntil := 0 }

/-- A victim at 25 health standing at the origin. -/
def plC : ServerPlayer :=
  { id := "c", name := "C", position := ⟨0, 1, 0⟩, rotation := ⟨0, 0⟩,
    velocity := ⟨0, 0, 0⟩, lastUpdateTime := 0, health := 25, isAlive := true,
    weaponId := "rifle", kills := 0, deaths := 0, spawnProtectionUntil := 0 }

/-- A projectile of `plA` that, after one tick of movement, both overlaps
`plB`'s capsule and leaves the arena. -/
def projX : ServerProjectile :=
  { id := "x", ownerId := "a", position := ⟨15/2, 3/2, 0⟩, velocity := ⟨3, 0, 0⟩,
    createdAt := 0, lifetime := 5 }

/-- A projectile of `plA` that, after one tick of movement, hits `plC`. -/
def projY : ServerProjectile :=
  { id := "y", ownerId := "a", position := ⟨4/5, 3/2, 0⟩, velocity := ⟨-3, 0, 0⟩,
    createdAt := 0, lifetime := 5 }

/-- A two-player session fixture in the waiting state. -/
def sessAB : Session :=
  { sessionId := "s", players := [plA, plB], projectiles := [],
    projectileIdCounter := 0, tick := 0, matchState := .waiting,
    matchDuration := 300000, matchStartTime := 0, matchEndTime := 0,
    countdownStartTime := 0 }

/-- A fire command whose ray direction is not a unit vector. -/
def cexFire : FireCommand :=
  { timestamp := 5000, rayOrigin := ⟨0, 3/2, 0⟩, rayDir := ⟨2, 0, 0⟩,
    weaponId := "rifle" }

end LastOfGuss

-- ===========================================================================
-- Theorems
-- ===========================================================================

namespace LastOfGuss

/-- Unfolded form of `validateMovement` in the lag branch. -/
theorem validateMovement_lag (p : ServerPlayer) (u : PositionUpdate) (now : ℚ)
    (h : MAX_UPDATE_INTERVAL < (now - p.lastUpdateTime) / 1000) :
    validateMovement p u now = (true, { p with lastUpdateTime := now }) := by
  simp only [validateMovement]
  rw [if_pos h]

/-- Unfolded form of `validateMovement` in the reject branch. -/
theorem validateMovement_reject (p : ServerPlayer) (u : PositionUpdate) (now : ℚ)
    (h : ¬ MAX_UPDATE_INTERVAL < (now - p.lastUpdateTime) / 1000)
    (hr : movementRejected p u ((now - p.lastUpdateTime) / 1000)) :
    validateMovement p u now = (false, p) := by
  simp only [validateMovement]
  rw [if_neg h, if_pos hr]

/-- Unfolded form of `validateMovement` in the accept branch. -/
theorem validateMovement_accept (p : ServerPlayer) (u : PositionUpdate) (now : ℚ)
    (h : ¬ MAX_UPDATE_INTERVAL < (now - p.lastUpdateTime) / 1000)
    (hr : ¬ movementRejected p u ((now - p.lastUpdateTime) / 1000)) :
    validateMovement p u now = (true, p) := by
  simp only [validateMovement]
  rw [if_neg h, if_neg hr]

/-- C1 (amended): a rejected update leaves the player record untouched; an
update arriving with `dt > MAX_UPDATE_INTERVAL` is accepted unconditionally
(with only the timestamp baseline reset); and an update accepted with
`0 ≤ dt ≤ MAX_UPDATE_INTERVAL` reports a position inside the arena bounds and
a displacement of at most `MAX_SPEED * dt` (i.e. speed at most `MAX_SPEED`
whenever `dt > 0`). -/
theorem validateMovement_spec (p : ServerPlayer) (u : PositionUpdate) (now : ℚ) :
    ((validateMovement p u now).1 = false → applyPositionUpdate p u now = p) ∧
    (MAX_UPDATE_INTERVAL < (now - p.lastUpdateTime) / 1000 →
      (validateMovement p u now).1 = true) ∧
    ((validateMovement p u now).1 = true →
      0 ≤ now - p.lastUpdateTime →
      (now - p.lastUpdateTime) / 1000 ≤ MAX_UPDATE_INTERVAL →
      inBoundsPlayer u.position ∧
        distSq p.position u.position ≤
          (MAX_SPEED * ((now - p.lastUpdateTime) / 1000)) ^ 2) := by
  have hd2 : distSq p.position u.position =
      (u.position.x - p.position.x) * (u.position.x - p.position.x) +
      (u.position.y - p.position.y) * (u.position.y - p.position.y) +
      (u.position.z - p.position.z) * (u.position.z - p.position.z) := by
    unfold distSq; ring
  by_cases h1 : MAX_UPDATE_INTERVAL < (now - p.lastUpdateTime) / 1000
  · -- lag branch: accepted unconditionally
    have hv := validateMovement_lag p u now h1
    refine ⟨fun hf => ?_, fun _ => by rw [hv], fun _ hnn hle => absurd h1 (not_lt.mpr hle)⟩
    rw [hv] at hf
    simp at hf
  by_cases h2 : movementRejected p u ((now - p.lastUpdateTime) / 1000)
  · -- rejected: the player record is returned untouched
    have hv := validateMovement_reject p u now h1 h2
    refine ⟨fun _ => ?_, fun hl => absurd hl h1, fun ha => ?_⟩
    · unfold applyPositionUpdate
      rw [hv]
      simp
    · rw [hv] at ha
      simp at ha
  · -- accepted with all checks passed
    have hv := validateMovement_accept p u now h1 h2
    refine ⟨fun hf => ?_, fun hl => absurd hl h1, fun _ hnn hle => ?_⟩
    · rw [hv] at hf
      simp at hf
    simp only [movementRejected] at h2
    push_neg at h2
    obtain ⟨hs, ht, hx1, hx2, hz1, hz2, hy1, hy2⟩ := h2
    refine ⟨⟨hx1, hx2, hz1, hz2, hy1, hy2⟩, ?_⟩
    have hdnn : 0 ≤ (now - p.lastUpdateTime) / 1000 := by positivity
    unfold speedExceeded at hs
    push_neg at hs
    rw [hd2]
    rcases eq_or_lt_of_le hdnn with hz | hpos
    · calc (u.position.x - p.position.x) * (u.position.x - p.position.x) +
            (u.position.y - p.position.y) * (u.position.y - p.position.y) +
            (u.position.z - p.position.z) * (u.position.z - p.position.z)
          ≤ (0:ℚ) := hs.2 hz.symm
      _ ≤ (MAX_SPEED * ((now - p.lastUpdateTime) / 1000)) ^ 2 := by positivity
    · exact hs.1 hpos

/-- C1 fails as stated in the claim: after a gap larger than
`MAX_UPDATE_INTERVAL` the update is accepted even though its position is far
outside the arena bounds and the displacement exceeds `MAX_SPEED * dt`. -/
theorem validateMovement_lag_counterexample :
    (validateMovement cexPlayer cexUpdate 3000).1 = true ∧
    ¬ inBoundsPlayer cexUpdate.position ∧
    (MAX_SPEED * ((3000 - cexPlayer.lastUpdateTime) / 1000)) ^ 2 <
      distSq cexPlayer.position cexUpdate.position := by
  refine ⟨?_, ?_, ?_⟩
  · norm_num [validateMovement, cexPlayer, cexUpdate, MAX_UPDATE_INTERVAL]
  · norm_num [inBoundsPlayer, cexUpdate]
  · norm_num [cexPlayer, cexUpdate, distSq, MAX_SPEED]

/-- Witness for `validateMovement_spec` at a concrete rejected input: a 6-unit
jump within 0.1 s is rejected and leaves the player record unchanged. -/
theorem validateMovement_spec_witness :
    applyPositionUpdate cexPlayer
      { position := ⟨6, 1, 0⟩, rotation := ⟨0, 0⟩, velocity := ⟨0, 0, 0⟩,
        timestamp := 100 } 100 = cexPlayer :=
  (validateMovement_spec cexPlayer
      { position := ⟨6, 1, 0⟩, rotation := ⟨0, 0⟩, velocity := ⟨0, 0, 0⟩,
        timestamp := 100 } 100).1
    (by norm_num [validateMovement, movementRejected, speedExceeded, cexPlayer,
      MAX_UPDATE_INTERVAL, MAX_SPEED, MAX_TELEPORT])

-- C9: late respawn timers ---------------------------------------------------

/-- C9: a respawn timer firing for a player no longer in the session is a
no-op: the session is unchanged and no event (in particular no respawn
broadcast) is emitted. -/
theorem respawnPlayer_missing_noop (s : Session) (playerId : String) (now : ℚ)
    (h : getPlayer s.players playerId = none) :
    respawnPlayer s playerId now = (s, []) := by
  unfold respawnPlayer
  rw [h]

/-- Witness for `respawnPlayer_missing_noop`: the two-player fixture has no
player `"ghost"`, so the late timer does nothing. -/
theorem respawnPlayer_missing_noop_witness :
    respawnPlayer sessAB "ghost" 99999 = (sessAB, []) :=
  respawnPlayer_missing_noop sessAB "ghost" 99999 rfl

-- C10: fire from a missing or dead shooter ----------------------------------

/-- C10: a fire command whose shooter is absent from the player map, or whose
shooter is dead, creates no projectile and leaves the whole session state
unchanged. -/
theorem handleFireCommand_dead_or_missing_noop (s : Session) (shooterId : String)
    (cmd : FireCommand) (now : ℚ)
    (h : getPlayer s.players shooterId = none ∨
      ∃ sh, getPlayer s.players shooterId = some sh ∧ sh.isAlive = false) :
    handleFireCommand s shooterId cmd now = s := by
  unfold handleFireCommand
  rcases h with h | ⟨sh, hsh, hdead⟩
  · rw [h]
  · rw [hsh]
    simp [hdead]

/-- Witness for `handleFireCommand_dead_or_missing_noop`: a dead shooter
fixture. -/
theorem handleFireCommand_dead_or_missing_noop_witness :
    handleFireCommand
      { sessAB with players := [{ plA with health := 0, isAlive := false }, plB] }
      "a" cexFire 5000 =
    { sessAB with players := [{ plA with health := 0, isAlive := false }, plB] } :=
  handleFireCommand_dead_or_missing_noop _ "a" cexFire 5000
    (Or.inr ⟨{ plA with health := 0, isAlive := false },
      by norm_num [getPlayer, sessAB, plA, List.find?], rfl⟩)

-- C2: fire command projectile creation ---------------------------------------

/-- C2 (amended): a fire command from a present, alive shooter appends exactly
one projectile, positioned at `cmd.rayOrigin`, with velocity `cmd.rayDir`
scaled componentwise by `PROJECTILE_SPEED` — the source does not normalize
`rayDir`, so this equals `normalize(rayDir) * PROJECTILE_SPEED` exactly when
`rayDir` has unit length. -/
theorem handleFireCommand_adds_projectile (s : Session) (shooterId : String)
    (cmd : FireCommand) (now : ℚ) (shooter : ServerPlayer)
    (hs : getPlayer s.players shooterId = some shooter)
    (halive : shooter.isAlive = true) :
    (handleFireCommand s shooterId cmd now).projectiles =
      s.projectiles ++
        [{ id := s.sessionId ++ "_" ++ shooterId ++ "_" ++ toString s.projectileIdCounter
           ownerId := shooterId
           position := cmd.rayOrigin
           velocity := ⟨cmd.rayDir.x * PROJECTILE_SPEED,
             cmd.rayDir.y * PROJECTILE_SPEED, cmd.rayDir.z * PROJECTILE_SPEED⟩
           createdAt := now
           lifetime := PROJECTILE_LIFETIME }] ∧
    (handleFireCommand s shooterId cmd now).players = s.players ∧
    (handleFireCommand s shooterId cmd now).projectileIdCounter =
      s.projectileIdCounter + 1 ∧
    (normSq cmd.rayDir = 1 →
      IsNormTimes cmd.rayDir
        ⟨cmd.rayDir.x * PROJECTILE_SPEED, cmd.rayDir.y * PROJECTILE_SPEED,
         cmd.rayDir.z * PROJECTILE_SPEED⟩ PROJECTILE_SPEED) := by
  have hv : handleFireCommand s shooterId cmd now =
      { s with
        projectiles := s.projectiles ++
          [{ id := s.sessionId ++ "_" ++ shooterId ++ "_" ++ toString s.projectileIdCounter
             ownerId := shooterId
             position := cmd.rayOrigin
             velocity := ⟨cmd.rayDir.x * PROJECTILE_SPEED,
               cmd.rayDir.y * PROJECTILE_SPEED, cmd.rayDir.z * PROJECTILE_SPEED⟩
             createdAt := now
             lifetime := PROJECTILE_LIFETIME }]
        projectileIdCounter := s.projectileIdCounter + 1 } := by
    unfold handleFireCommand
    rw [hs]
    simp [halive]
  refine ⟨by rw [hv], by rw [hv], by rw [hv], fun hunit => ?_⟩
  constructor
  · unfold normSq at hunit ⊢
    simp only
    calc (cmd.rayDir.x * PROJECTILE_SPEED) ^ 2 + (cmd.rayDir.y * PROJECTILE_SPEED) ^ 2 +
        (cmd.rayDir.z * PROJECTILE_SPEED) ^ 2
        = (cmd.rayDir.x ^ 2 + cmd.rayDir.y ^ 2 + cmd.rayDir.z ^ 2) * PROJECTILE_SPEED ^ 2 := by
          ring
    _ = PROJECTILE_SPEED ^ 2 := by rw [hunit, one_mul]
  · exact ⟨PROJECTILE_SPEED, by norm_num [PROJECTILE_SPEED], by
      simp only [Vec3.mk.injEq]
      refine ⟨by ring, by ring, by ring⟩⟩

/-- C2 fails as stated: for the non-unit ray direction `(2,0,0)` the created
projectile's velocity is `(50,0,0)`, whose squared norm is `2500 ≠ 625`, so it
is not `normalize(rayDir) * PROJECTILE_SPEED` (which would be `(25,0,0)`). -/
theorem handleFireCommand_velocity_not_normalized :
    (handleFireCommand sessAB "a" cexFire 5000).projectiles =
      [{ id := "s_a_0", ownerId := "a", position := ⟨0, 3/2, 0⟩,
         velocity := ⟨50, 0, 0⟩, createdAt := 5000, lifetime := 5 }] ∧
    ¬ IsNormTimes cexFire.rayDir ⟨50, 0, 0⟩ PROJECTILE_SPEED := by
  constructor
  · norm_num [handleFireCommand, getPlayer, sessAB, plA, plB, List.find?,
      cexFire, PROJECTILE_SPEED, PROJECTILE_LIFETIME]
    rfl
  · rintro ⟨hnorm, -⟩
    norm_num [normSq, PROJECTILE_SPEED] at hnorm

/-- Witness for `handleFireCommand_adds_projectile`: the alive shooter `plA`
of the fixture session creates exactly one projectile. -/
theorem handleFireCommand_adds_projectile_witness :
    (handleFireCommand sessAB "a" cexFire 5000).projectiles =
      sessAB.projectiles ++
        [{ id := sessAB.sessionId ++ "_" ++ "a" ++ "_" ++
             toString sessAB.projectileIdCounter
           ownerId := "a"
           position := cexFire.rayOrigin
           velocity := ⟨cexFire.rayDir.x * PROJECTILE_SPEED,
             cexFire.rayDir.y * PROJECTILE_SPEED,
             cexFire.rayDir.z * PROJECTILE_SPEED⟩
           createdAt := 5000
           lifetime := PROJECTILE_LIFETIME }] :=
  (handleFireCommand_adds_projectile sessAB "a" cexFire 5000 plA rfl rfl).1

-- C6: the match state machine only moves forward ------------------------------

/-- C6: one step of `updateMatchState` never moves the state backwards, each
state can only be entered from its predecessor under the documented condition
(`countdown` from `waiting` with ≥ 2 players; `active` from `countdown` once
the fixed countdown duration elapsed; `finished` from `active` once the
recorded end time is reached), `countdown` never reverts to `waiting`, and
`finished` is terminal. -/
theorem updateMatchState_forward (s : Session) (now : ℚ) :
    (s.matchState.rank ≤ (updateMatchState s now).1.matchState.rank) ∧
    (s.matchState = .finished → (updateMatchState s now).1.matchState = .finished) ∧
    ((updateMatchState s now).1.matchState = .countdown →
      s.matchState = .countdown ∨
        (s.matchState = .waiting ∧ 2 ≤ s.players.length)) ∧
    ((updateMatchState s now).1.matchState = .active →
      s.matchState = .active ∨
        (s.matchState = .countdown ∧ s.countdownStartTime + COUNTDOWN_DURATION ≤ now)) ∧
    ((updateMatchState s now).1.matchState = .finished →
      s.matchState = .finished ∨ (s.matchState = .active ∧ s.matchEndTime ≤ now)) ∧
    (s.matchState = .waiting →
      (updateMatchState s now).1.matchState = .waiting ∨
        (updateMatchState s now).1.matchState = .countdown) ∧
    (s.matchState = .countdown →
      (updateMatchState s now).1.matchState = .countdown ∨
        (updateMatchState s now).1.matchState = .active) := by
  rcases hms : s.matchState with _ | _ | _ | _ <;>
    · unfold updateMatchState
      rw [hms]
      try split_ifs with hc
      all_goals
        simp_all [startCountdown, startMatch, endMatch, MatchState.rank]

/-- Witness for `updateMatchState_forward`: the waiting two-player fixture
starts the countdown. -/
theorem updateMatchState_forward_witness :
    (updateMatchState sessAB 1000).1.matchState = .waiting ∨
      (updateMatchState sessAB 1000).1.matchState = .countdown :=
  (updateMatchState_forward sessAB 1000).2.2.2.2.2.1 rfl

-- C7: the final scoreboard -----------------------------------------------------

/-- Inserting into the stable sort is a permutation of consing. -/
theorem insertScore_perm (e : ScoreEntry) (l : List ScoreEntry) :
    (insertScore e l).Perm (e :: l) := by
  induction l with
  | nil => simp [insertScore]
  | cons f rest ih =>
    unfold insertScore
    split_ifs
    · exact ((ih.cons f).trans (List.Perm.swap e f rest)).symm.symm
    · exact List.Perm.refl _

/-- The stable sort permutes its input. -/
theorem sortScores_perm (l : List ScoreEntry) : (sortScores l).Perm l := by
  induction l with
  | nil => exact List.Perm.refl _
  | cons e rest ih =>
    exact (insertScore_perm e (sortScores rest)).trans (ih.cons e)

/-- Inserting below every strictly-larger entry keeps the list sorted by
descending kills. -/
theorem insertScore_pairwise (e : ScoreEntry) (l : List ScoreEntry)
    (h : List.Pairwise (fun a b : ScoreEntry => b.kills ≤ a.kills) l) :
    List.Pairwise (fun a b : ScoreEntry => b.kills ≤ a.kills) (insertScore e l) := by
  induction l with
  | nil => simp [insertScore]
  | cons f rest ih =>
    rcases h with - | ⟨hf, hrest⟩
    unfold insertScore
    split_ifs with hk
    · refine List.Pairwise.cons (fun x hx => ?_) (ih hrest)
      rcases List.mem_cons.mp ((insertScore_perm e rest).mem_iff.mp hx) with hx | hx
      · subst hx; exact le_of_lt hk
      · exact hf x hx
    · refine List.Pairwise.cons (fun x hx => ?_) (List.Pairwise.cons hf hrest)
      rcases List.mem_cons.mp hx with hx | hx
      · subst hx; exact not_lt.mp hk
      · exact le_trans (hf x hx) (not_lt.mp hk)

/-- The whole stable sort is sorted by descending kills. -/
theorem sortScores_pairwise (l : List ScoreEntry) :
    List.Pairwise (fun a b : ScoreEntry => b.kills ≤ a.kills) (sortScores l) := by
  induction l with
  | nil => simp [sortScores]
  | cons e rest ih => exact insertScore_pairwise e (sortScores rest) ih

/-- Insertion commutes with filtering on one kill count: an entry only ever
moves past entries with strictly more kills, never past an equal-kills entry,
so each equal-kills class keeps its relative order. -/
theorem insertScore_filter (e : ScoreEntry) (l : List ScoreEntry) (k : ℕ) :
    (insertScore e l).filter (fun x => x.kills == k) =
      ((e :: l).filter (fun x => x.kills == k)) := by
  induction l with
  | nil => simp [insertScore]
  | cons f rest ih =>
    unfold insertScore
    split_ifs with hk
    · by_cases hek : e.kills = k
      · have hfk : ¬ f.kills = k := by omega
        simp only [List.filter_cons, hek, hfk]
        simp only [beq_iff_eq, hek, hfk, if_true, if_false, ite_true, ite_false]
        simp only [decide_eq_true_eq] at ih ⊢
        rw [ih]
        simp [List.filter_cons, hek, hfk]
      · simp only [List.filter_cons]
        simp only [beq_iff_eq, hek]
        rw [ih]
        simp [List.filter_cons, hek]
    · rfl

/-- The stable sort preserves each equal-kills class in input order. -/
theorem sortScores_filter (l : List ScoreEntry) (k : ℕ) :
    (sortScores l).filter (fun x => x.kills == k) =
      l.filter (fun x => x.kills == k) := by
  induction l with
  | nil => rfl
  | cons e rest ih =>
    unfold sortScores
    rw [insertScore_filter]
    simp only [List.filter_cons]
    rw [ih]

/-- Assigning placements does not change the entry data. -/
theorem assignPlacements_map_entryData (n : ℕ) (l : List ScoreEntry) :
    (assignPlacements n l).map entryData = l.map entryData := by
  induction l generalizing n with
  | nil => rfl
  | cons e rest ih =>
    unfold assignPlacements
    simp only [List.map_cons, ih]
    rfl

/-- Membership in the placement-assigned list preserves kill counts. -/
theorem assignPlacements_mem_kills (x : ScoreEntry) :
    ∀ (n : ℕ) (l : List ScoreEntry), x ∈ assignPlacements n l →
      ∃ y ∈ l, x.kills = y.kills := by
  intro n l
  induction l generalizing n with
  | nil => simp [assignPlacements]
  | cons e rest ih =>
    unfold assignPlacements
    intro hx
    rcases List.mem_cons.mp hx with hx | hx
    · exact ⟨e, List.mem_cons_self e rest, by rw [hx]⟩
    · obtain ⟨y, hy, hk⟩ := ih (n + 1) hx
      exact ⟨y, List.mem_cons_of_mem e hy, hk⟩

/-- Assigning placements keeps the list sorted by descending kills. -/
theorem assignPlacements_pairwise (n : ℕ) (l : List ScoreEntry)
    (h : List.Pairwise (fun a b : ScoreEntry => b.kills ≤ a.kills) l) :
    List.Pairwise (fun a b : ScoreEntry => b.kills ≤ a.kills)
      (assignPlacements n l) := by
  induction l generalizing n with
  | nil => simp [assignPlacements]
  | cons e rest ih =>
    rcases h with - | ⟨he, hrest⟩
    unfold assignPlacements
    refine List.Pairwise.cons (fun x hx => ?_) (ih (n + 1) hrest)
    obtain ⟨y, hy, hk⟩ := assignPlacements_mem_kills x (n + 1) rest hx
    rw [hk]
    exact he y hy

/-- The `i`-th placement-assigned entry carries placement `n + i + 1`. -/
theorem assignPlacements_placement :
    ∀ (l : List ScoreEntry) (n i : ℕ) (e : ScoreEntry),
      (assignPlacements n l)[i]? = some e → e.placement = n + i + 1 := by
  intro l
  induction l with
  | nil => intro n i e h; simp [assignPlacements] at h
  | cons f rest ih =>
    intro n i e h
    unfold assignPlacements at h
    match i with
    | 0 =>
      simp only [List.getElem?_cons_zero, Option.some.injEq] at h
      rw [← h]
    | j + 1 =>
      simp only [List.getElem?_cons_succ] at h
      have := ih (n + 1) j e h
      omega

/-- C7: when the active match clock expires, `endMatch` enters `finished` and
broadcasts a match-end event whose scoreboard contains exactly the current
players (as entries), sorted by kill count descending with ties kept in the
original iteration order, whose placements are the 1-based positions in the
sorted order, and whose winner fields name the first scoreboard entry
unconditionally — also when that entry has zero kills. -/
theorem endMatch_scoreboard (s : Session) :
    (endMatch s).1.matchState = .finished ∧
    (endMatch s).2 =
      [GameEvent.matchEnd ((scoreboardOf s.players).head?.map (fun w => w.playerId))
        ((scoreboardOf s.players).head?.map (fun w => w.playerName))
        (scoreboardOf s.players)] ∧
    (∀ e, (scoreboardOf s.players).head? = some e →
      (endMatch s).2 =
        [GameEvent.matchEnd (some e.playerId) (some e.playerName)
          (scoreboardOf s.players)]) ∧
    ((scoreboardOf s.players).map entryData).Perm
      ((s.players.map toScoreEntry).map entryData) ∧
    List.Pairwise (fun a b : ScoreEntry => b.kills ≤ a.kills)
      (scoreboardOf s.players) ∧
    (∀ k : ℕ,
      (sortScores (s.players.map toScoreEntry)).filter (fun x => x.kills == k) =
        (s.players.map toScoreEntry).filter (fun x => x.kills == k)) ∧
    (∀ i e, (scoreboardOf s.players)[i]? = some e → e.placement = i + 1) := by
  refine ⟨rfl, rfl, ?_, ?_, ?_, ?_, ?_⟩
  · intro e he
    show [GameEvent.matchEnd ((scoreboardOf s.players).head?.map (fun w => w.playerId))
        ((scoreboardOf s.players).head?.map (fun w => w.playerName))
        (scoreboardOf s.players)] = _
    rw [he]
    rfl
  · unfold scoreboardOf
    rw [assignPlacements_map_entryData]
    exact (sortScores_perm (s.players.map toScoreEntry)).map entryData
  · exact assignPlacements_pairwise 0 _ (sortScores_pairwise _)
  · exact fun k => sortScores_filter (s.players.map toScoreEntry) k
  · intro i e he
    have := assignPlacements_placement (sortScores (s.players.map toScoreEntry)) 0 i e he
    omega

/-- Witness for `endMatch_scoreboard` at the two-player fixture: the winner is
the head entry (player `"a"` with zero kills, reported as winner anyway). -/
theorem endMatch_scoreboard_witness :
    (endMatch sessAB).2 =
      [GameEvent.matchEnd (some "a") (some "A") (scoreboardOf sessAB.players)] :=
  (endMatch_scoreboard sessAB).2.2.1
    { playerId := "a", playerName := "A", kills := 0, deaths := 0, placement := 1 }
    rfl

-- C8: spawn selection ----------------------------------------------------------

/-- `gtInf` is irreflexive (JavaScript's `Infinity > Infinity` is false). -/
theorem gtInf_irrefl (a : Option ℚ) : gtInf a a = false := by
  cases a <;> simp [gtInf]

/-- `a > b` excludes `b > a`. -/
theorem gtInf_asymm {a b : Option ℚ} (h : gtInf a b = true) : gtInf b a = false := by
  cases a <;> cases b <;> simp_all [gtInf] <;> linarith

/-- `a ≤ b ≤ c` gives `a ≤ c` (with `none` as top). -/
theorem gtInf_false_trans {a b c : Option ℚ} (h1 : gtInf a b = false)
    (h2 : gtInf b c = false) : gtInf a c = false := by
  cases a <;> cases b <;> cases c <;> simp_all [gtInf] <;> linarith

/-- `a > b > c` gives `a > c`. -/
theorem gtInf_trans {a b c : Option ℚ} (h1 : gtInf a b = true)
    (h2 : gtInf b c = true) : gtInf a c = true := by
  cases a <;> cases b <;> cases c <;> simp_all [gtInf] <;> linarith

/-- `a > m` and `c ≤ m` give `a > c`. -/
theorem gtInf_true_of_le {a c m : Option ℚ} (h1 : gtInf a m = true)
    (h2 : gtInf c m = false) : gtInf a c = true := by
  cases a <;> cases c <;> cases m <;> simp_all [gtInf] <;> linarith

/-- `a > m` and `a ≤ r` give `r > m`. -/
theorem gtInf_lt_of_le {a m r : Option ℚ} (h1 : gtInf a m = true)
    (h2 : gtInf a r = false) : gtInf r m = true := by
  cases a <;> cases m <;> cases r <;> simp_all [gtInf] <;> linarith

/-- Characterization of the strict-improvement fold of `getSpawnPoint`: the
accumulator value never decreases, bounds every candidate value from above,
and the final best is either the untouched initial pair or the earliest
candidate attaining the final (maximal) value, every candidate before it being
strictly worse. -/
theorem selectBest_spec (v : Vec3 → Option ℚ) :
    ∀ (cs : List Vec3) (b : Vec3) (m : Option ℚ),
      gtInf m
        (cs.foldl (fun acc sp => if gtInf (v sp) acc.2 then (sp, v sp) else acc)
          (b, m)).2 = false ∧
      (∀ c ∈ cs,
        gtInf (v c)
          (cs.foldl (fun acc sp => if gtInf (v sp) acc.2 then (sp, v sp) else acc)
            (b, m)).2 = false) ∧
      ((cs.foldl (fun acc sp => if gtInf (v sp) acc.2 then (sp, v sp) else acc)
          (b, m)) = (b, m) ∨
        (∃ l1 l2,
          cs = l1 ++
            (cs.foldl (fun acc sp => if gtInf (v sp) acc.2 then (sp, v sp) else acc)
              (b, m)).1 :: l2 ∧
          (cs.foldl (fun acc sp => if gtInf (v sp) acc.2 then (sp, v sp) else acc)
            (b, m)).2 =
            v (cs.foldl (fun acc sp => if gtInf (v sp) acc.2 then (sp, v sp) else acc)
              (b, m)).1 ∧
          gtInf
            (cs.foldl (fun acc sp => if gtInf (v sp) acc.2 then (sp, v sp) else acc)
              (b, m)).2 m = true ∧
          ∀ c ∈ l1,
            gtInf
              (cs.foldl (fun acc sp => if gtInf (v sp) acc.2 then (sp, v sp) else acc)
                (b, m)).2 (v c) = true)) := by
  intro cs
  induction cs with
  | nil =>
    intro b m
    exact ⟨gtInf_irrefl m, by simp, Or.inl rfl⟩
  | cons c rest ih =>
    intro b m
    by_cases hc : gtInf (v c) m = true
    · have hstep : (c :: rest).foldl
          (fun acc sp => if gtInf (v sp) acc.2 then (sp, v sp) else acc) (b, m) =
          rest.foldl (fun acc sp => if gtInf (v sp) acc.2 then (sp, v sp) else acc)
            (c, v c) := by
        simp [List.foldl_cons, hc]
      obtain ⟨ha, hb, hor⟩ := ih c (v c)
      rw [hstep]
      refine ⟨?_, ?_, ?_⟩
      · exact gtInf_asymm (gtInf_lt_of_le hc ha)
      · intro x hx
        rcases List.mem_cons.mp hx with hx | hx
        · subst hx; exact ha
        · exact hb x hx
      · rcases hor with heq | ⟨l1, l2, hsplit, hval, hgt, hstrict⟩
        · refine Or.inr ⟨[], rest, ?_, ?_, ?_, by simp⟩
          · rw [heq]
            rfl
          · rw [heq]
          · rw [heq]
            exact hc
        · refine Or.inr ⟨c :: l1, l2, ?_, hval, ?_, ?_⟩
          · rw [List.cons_append, ← hsplit]
          · exact gtInf_trans hgt hc
          · intro x hx
            rcases List.mem_cons.mp hx with hx | hx
            · subst hx; exact hgt
            · exact hstrict x hx
    · have hcf : gtInf (v c) m = false := by
        cases hgt : gtInf (v c) m
        · rfl
        · exact absurd hgt hc
      have hstep : (c :: rest).foldl
          (fun acc sp => if gtInf (v sp) acc.2 then (sp, v sp) else acc) (b, m) =
          rest.foldl (fun acc sp => if gtInf (v sp) acc.2 then (sp, v sp) else acc)
            (b, m) := by
        simp [List.foldl_cons, hcf]
      obtain ⟨ha, hb, hor⟩ := ih b m
      rw [hstep]
      refine ⟨ha, ?_, ?_⟩
      · intro x hx
        rcases List.mem_cons.mp hx with hx | hx
        · subst hx; exact gtInf_false_trans hcf ha
        · exact hb x hx
      · rcases hor with heq | ⟨l1, l2, hsplit, hval, hgt, hstrict⟩
        · exact Or.inl heq
        · refine Or.inr ⟨c :: l1, l2, ?_, hval, hgt, ?_⟩
          · rw [List.cons_append, ← hsplit]
          · intro x hx
            rcases List.mem_cons.mp hx with hx | hx
            · subst hx; exact gtInf_true_of_le hgt hcf
            · exact hstrict x hx

/-- Values of `minDistSqToAlive` are squared distances, hence nonnegative. -/
theorem minDistSqToAlive_nonneg (players : List ServerPlayer) (sp : Vec3) :
    ∀ d, minDistSqToAlive players sp = some d → 0 ≤ d := by
  unfold minDistSqToAlive
  suffices h : ∀ (l : List ServerPlayer) (acc : Option ℚ),
      (∀ d, acc = some d → 0 ≤ d) →
      ∀ d, (l.foldl (fun acc p =>
        if p.isAlive = false then acc
        else if ltInf (distSq p.position sp) acc then some (distSq p.position sp)
        else acc) acc) = some d → 0 ≤ d by
    exact h players none (by simp)
  intro l
  induction l with
  | nil => intro acc hacc d hd; exact hacc d hd
  | cons p rest ih =>
    intro acc hacc d hd
    simp only [List.foldl_cons] at hd
    refine ih _ ?_ d hd
    split_ifs
    · exact hacc
    · intro d' hd'
      rw [Option.some.injEq] at hd'
      rw [← hd']
      unfold distSq
      positivity
    · exact hacc

/-- The fixed candidate list starts with its `headI`. -/
theorem SPAWN_POINTS_head_cons : SPAWN_POINTS = SPAWN_POINTS.headI :: SPAWN_POINTS.tail := rfl

/-- C8: `getSpawnPoint` returns the first spawn point for an empty session;
in general it returns a candidate of the fixed list whose minimum squared
distance to the alive players (`none` = no alive player = `Infinity`) is
maximal, and every candidate strictly earlier in list order is strictly worse
— i.e. ties resolve to the earliest candidate.  (Squared distances order
exactly as the Euclidean distances the source compares.) -/
theorem getSpawnPoint_spec (players : List ServerPlayer) :
    (players = [] → getSpawnPoint players = SPAWN_POINTS.headI) ∧
    (∃ l1 l2, SPAWN_POINTS = l1 ++ getSpawnPoint players :: l2 ∧
      (∀ sp ∈ SPAWN_POINTS,
        gtInf (minDistSqToAlive players sp)
          (minDistSqToAlive players (getSpawnPoint players)) = false) ∧
      (∀ sp ∈ l1,
        gtInf (minDistSqToAlive players (getSpawnPoint players))
          (minDistSqToAlive players sp) = true)) := by
  by_cases hp : players.length = 0
  · have hnil : players = [] := List.length_eq_zero.mp hp
    have hg : getSpawnPoint players = SPAWN_POINTS.headI := by
      unfold getSpawnPoint
      rw [if_pos hp]
    have hnone : ∀ sp, minDistSqToAlive players sp = none := by
      intro sp
      rw [hnil]
      rfl
    refine ⟨fun _ => hg, ⟨[], SPAWN_POINTS.tail, ?_, ?_, by simp⟩⟩
    · rw [hg]
      exact SPAWN_POINTS_head_cons
    · intro sp _
      rw [hnone sp, hnone (getSpawnPoint players)]
      rfl
  · have hg : getSpawnPoint players =
        (SPAWN_POINTS.foldl
          (fun acc sp =>
            if gtInf (minDistSqToAlive players sp) acc.2 then
              (sp, minDistSqToAlive players sp)
            else acc)
          (SPAWN_POINTS.headI, some 0)).1 := by
      unfold getSpawnPoint
      rw [if_neg hp]
    obtain ⟨ha, hb, hor⟩ :=
      selectBest_spec (minDistSqToAlive players) SPAWN_POINTS SPAWN_POINTS.headI
        (some 0)
    refine ⟨fun hnil => absurd (by rw [hnil]; rfl) hp, ?_⟩
    rcases hor with heq | ⟨l1, l2, hsplit, hval, hgt, hstrict⟩
    · -- the running maximum never rose above the initial 0: every candidate,
      -- including the returned head, has minimum distance exactly 0
      have hr2 : (SPAWN_POINTS.foldl
          (fun acc sp =>
            if gtInf (minDistSqToAlive players sp) acc.2 then
              (sp, minDistSqToAlive players sp)
            else acc)
          (SPAWN_POINTS.headI, some 0)).2 = some 0 := by rw [heq]
      have hhead : minDistSqToAlive players SPAWN_POINTS.headI = some 0 := by
        have hle := hb SPAWN_POINTS.headI (by rw [SPAWN_POINTS_head_cons]; exact List.mem_cons_self _ _)
        rw [hr2] at hle
        cases hmv : minDistSqToAlive players SPAWN_POINTS.headI with
        | none => rw [hmv] at hle; simp [gtInf] at hle
        | some d =>
          have hnn := minDistSqToAlive_nonneg players SPAWN_POINTS.headI d hmv
          rw [hmv] at hle
          simp only [gtInf, decide_eq_false_iff_not, not_lt] at hle
          have : d = 0 := le_antisymm hle hnn
          rw [this]
      refine ⟨[], SPAWN_POINTS.tail, ?_, ?_, by simp⟩
      · rw [hg, heq]
        exact SPAWN_POINTS_head_cons
      · intro sp hsp
        rw [hg, heq]
        simp only
        rw [hhead]
        have := hb sp hsp
        rw [hr2] at this
        exact this
    · refine ⟨l1, l2, ?_, ?_, ?_⟩
      · rw [hg]; exact hsplit
      · intro sp hsp
        rw [hg, ← hval]
        exact hb sp hsp
      · intro sp hsp
        rw [hg, ← hval]
        exact hstrict sp hsp

/-- Witness for `getSpawnPoint_spec`: an empty session yields the first spawn
point. -/
theorem getSpawnPoint_spec_witness :
    getSpawnPoint [] = SPAWN_POINTS.headI :=
  (getSpawnPoint_spec []).1 rfl

-- Projectile tick helper lemmas (C3, C4, C5) ---------------------------------

/-- An unchanged alive flag has no respawn to schedule. -/
theorem LifeStep_refl (a : Bool) : LifeStep a a 0 := by
  unfold LifeStep
  cases a <;> simp

/-- `LifeStep` composes along consecutive steps, adding the counts. -/
theorem LifeStep_comp {a b c : Bool} {c1 c2 : ℕ} (h1 : LifeStep a b c1)
    (h2 : LifeStep b c c2) : LifeStep a c (c1 + c2) := by
  unfold LifeStep at *
  cases a <;> cases b <;> cases c <;> simp_all

/-- `respawnCount` adds over concatenated event lists. -/
theorem respawnCount_append (evs1 evs2 : List GameEvent) (pid : String) :
    respawnCount (evs1 ++ evs2) pid = respawnCount evs1 pid + respawnCount evs2 pid :=
  List.countP_append _ evs1 evs2

/-- A victim returned by the player scan is a member of the scanned list, is
alive, is not the owner, and is not spawn-protected. -/
theorem scanVictim_mem (now : ℚ) (proj : ServerProjectile) :
    ∀ (pls : List ServerPlayer) (v : ServerPlayer),
      scanVictim now proj pls = some v →
      v ∈ pls ∧ v.isAlive = true ∧ ¬ v.id = proj.ownerId ∧
        ¬ now < v.spawnProtectionUntil := by
  intro pls
  induction pls with
  | nil => intro v h; simp [scanVictim] at h
  | cons pl rest ih =>
    intro v h
    unfold scanVictim at h
    split_ifs at h with h1 h2 h3
    · obtain ⟨hm, h⟩ := ih v h
      exact ⟨List.mem_cons_of_mem pl hm, h⟩
    · obtain ⟨hm, h⟩ := ih v h
      exact ⟨List.mem_cons_of_mem pl hm, h⟩
    · rw [Option.some.injEq] at h
      subst h
      push_neg at h1
      exact ⟨List.mem_cons_self _ _, Bool.of_not_eq_false h1.2, h1.1, h2⟩
    · obtain ⟨hm, h⟩ := ih v h
      exact ⟨List.mem_cons_of_mem pl hm, h⟩

/-- In an id-unique player list, equal ids give equal players. -/
theorem eq_of_mem_of_id_eq {pls : List ServerPlayer}
    (hnd : (pls.map ServerPlayer.id).Nodup) {x y : ServerPlayer}
    (hx : x ∈ pls) (hy : y ∈ pls) (h : x.id = y.id) : x = y :=
  List.inj_on_of_nodup_map hnd hx hy h

/-- `applyHitFun` never changes a player's id. -/
theorem applyHitFun_id (ownerId : String) (victim q : ServerPlayer) :
    (applyHitFun ownerId victim q).id = q.id := by
  unfold applyHitFun
  split_ifs <;> rfl

/-- `applyHitFun` never changes a player's spawn protection. -/
theorem applyHitFun_prot (ownerId : String) (victim q : ServerPlayer) :
    (applyHitFun ownerId victim q).spawnProtectionUntil = q.spawnProtectionUntil := by
  unfold applyHitFun
  split_ifs <;> rfl

/-- `applyHitFun` leaves every non-victim entry's health, alive flag and death
count untouched. -/
theorem applyHitFun_other (ownerId : String) (victim q : ServerPlayer)
    (h : ¬ q.id = victim.id) :
    (applyHitFun ownerId victim q).health = q.health ∧
    (applyHitFun ownerId victim q).isAlive = q.isAlive ∧
    (applyHitFun ownerId victim q).deaths = q.deaths := by
  unfold applyHitFun
  rw [if_neg h]
  split_ifs <;> exact ⟨rfl, rfl, rfl⟩

/-- The hit resolution keeps the id sequence of the player list. -/
theorem applyHit_map_id (ownerId : String) (victim : ServerPlayer)
    (pls : List ServerPlayer) :
    (applyHit ownerId victim pls).1.map ServerPlayer.id =
      pls.map ServerPlayer.id := by
  unfold applyHit
  dsimp only
  rw [List.map_map]
  exact List.map_congr_left (fun q _ => applyHitFun_id ownerId victim q)

/-- The hit resolution keeps the spawn-protection sequence of the player list. -/
theorem applyHit_map_prot (ownerId : String) (victim : ServerPlayer)
    (pls : List ServerPlayer) :
    (applyHit ownerId victim pls).1.map (fun q => q.spawnProtectionUntil) =
      pls.map (fun q => q.spawnProtectionUntil) := by
  unfold applyHit
  dsimp only
  rw [List.map_map]
  exact List.map_congr_left (fun q _ => applyHitFun_prot ownerId victim q)

/-- One projectile step keeps the id sequence of the player list. -/
theorem processProjectile_map_id (now dt : ℚ) (pls : List ServerPlayer)
    (proj : ServerProjectile) :
    (processProjectile now dt pls proj).1.map ServerPlayer.id =
      pls.map ServerPlayer.id := by
  unfold processProjectile
  split
  · rfl
  · dsimp only
    split
    · split <;> rfl
    · split <;> apply applyHit_map_id

/-- One projectile step keeps the spawn-protection sequence of the player
list. -/
theorem processProjectile_map_prot (now dt : ℚ) (pls : List ServerPlayer)
    (proj : ServerProjectile) :
    (processProjectile now dt pls proj).1.map (fun q => q.spawnProtectionUntil) =
      pls.map (fun q => q.spawnProtectionUntil) := by
  unfold processProjectile
  split
  · rfl
  · dsimp only
    split
    · split <;> rfl
    · split <;> apply applyHit_map_prot

/-- C5 at the single-projectile level: a spawn-protected player's health,
alive flag and death count survive one projectile step untouched. -/
theorem processProjectile_protected (now dt : ℚ) (pls : List ServerPlayer)
    (proj : ServerProjectile) (hnd : (pls.map ServerPlayer.id).Nodup) (i : ℕ)
    (p : ServerPlayer) (hp : pls[i]? = some p)
    (hprot : now < p.spawnProtectionUntil) :
    ∃ p', (processProjectile now dt pls proj).1[i]? = some p' ∧
      p'.id = p.id ∧ p'.spawnProtectionUntil = p.spawnProtectionUntil ∧
      p'.health = p.health ∧ p'.isAlive = p.isAlive ∧ p'.deaths = p.deaths := by
  unfold processProjectile
  split
  · exact ⟨p, hp, rfl, rfl, rfl, rfl, rfl⟩
  · dsimp only
    split
    · split <;> exact ⟨p, hp, rfl, rfl, rfl, rfl, rfl⟩
    · next victim hscan =>
      have hv := scanVictim_mem now _ pls victim hscan
      have hpmem : p ∈ pls := List.getElem?_mem hp
      have hne : ¬ p.id = victim.id := by
        intro h
        have heq := eq_of_mem_of_id_eq hnd hpmem hv.1 h
        rw [heq] at hprot
        exact hv.2.2.2 hprot
      have hidx : (applyHit proj.ownerId victim pls).1[i]? =
          some (applyHitFun proj.ownerId victim p) := by
        unfold applyHit
        dsimp only
        rw [List.getElem?_map, hp]
        rfl
      have hoth := applyHitFun_other proj.ownerId victim p hne
      split <;>
        exact ⟨applyHitFun proj.ownerId victim p, hidx, applyHitFun_id _ _ _,
          applyHitFun_prot _ _ _, hoth.1, hoth.2.1, hoth.2.2⟩

/-- One projectile step preserves the health/alive invariant of every player
(given id-uniqueness, as maps have). -/
theorem processProjectile_inv (now dt : ℚ) (pls : List ServerPlayer)
    (proj : ServerProjectile) (hnd : (pls.map ServerPlayer.id).Nodup)
    (hinv : ∀ q ∈ pls, PlayerInv q) :
    ∀ q ∈ (processProjectile now dt pls proj).1, PlayerInv q := by
  unfold processProjectile
  split
  · exact hinv
  · dsimp only
    split
    · split <;> exact hinv
    · next victim hscan =>
      have hv := scanVictim_mem now _ pls victim hscan
      have hvinv := hinv victim hv.1
      have key : ∀ q ∈ (applyHit proj.ownerId victim pls).1, PlayerInv q := by
        unfold applyHit
        dsimp only
        intro q' hq'
        obtain ⟨q, hq, rfl⟩ := List.mem_map.mp hq'
        unfold applyHitFun
        by_cases h1 : q.id = victim.id
        · have hqv : q = victim := eq_of_mem_of_id_eq hnd hq hv.1 h1
          rw [if_pos h1]
          subst hqv
          have hh0 : (0:ℚ) ≤ hitHealth q := le_max_left _ _
          have hh100 : hitHealth q ≤ 100 := by
            have h100 := (hinv q hq).2.1
            unfold hitHealth PROJECTILE_DAMAGE
            rw [max_le_iff]
            constructor <;> linarith
          by_cases hk : hitHealth q ≤ 0
          · refine ⟨hh0, hh100, ?_⟩
            rw [if_pos hk, if_pos hk]
            simp only [Bool.false_eq_true, false_iff, not_lt]
            exact hk
          · refine ⟨hh0, hh100, ?_⟩
            rw [if_neg hk, if_neg hk]
            have halive : q.isAlive = true := hv.2.1
            rw [halive]
            simp only [true_iff]
            exact not_le.mp hk
        · rw [if_neg h1]
          split_ifs with h2
          · exact (hinv q hq : PlayerInv q)
          · exact hinv q hq
      split <;> exact key

/-- Respawn timers scheduled by one hit resolution: exactly one for the
victim when the hit is lethal, none otherwise. -/
theorem respawnCount_applyHit (ownerId : String) (victim : ServerPlayer)
    (pls : List ServerPlayer) (pid : String) :
    respawnCount (applyHit ownerId victim pls).2 pid =
      if hitHealth victim ≤ 0 ∧ victim.id = pid then 1 else 0 := by
  unfold applyHit respawnCount
  dsimp only
  by_cases hk : hitHealth victim ≤ 0
  · rw [if_pos hk]
    by_cases hvid : victim.id = pid
    · rw [if_pos ⟨hk, hvid⟩]
      simp [List.countP_cons, hvid]
    · rw [if_neg (fun hc => hvid hc.2)]
      simp [List.countP_cons, hvid]
  · rw [if_neg hk, if_neg (fun hc => hk hc.1)]
    simp [List.countP_cons]

/-- C3 at the single-projectile level: per player, the alive flag flips
true→false exactly when a lethal hit lands on it, and exactly that many (0 or
1) respawn timers are scheduled for it; a dead player is never revived. -/
theorem processProjectile_life (now dt : ℚ) (pls : List ServerPlayer)
    (proj : ServerProjectile) (hnd : (pls.map ServerPlayer.id).Nodup) (i : ℕ)
    (p : ServerPlayer) (hp : pls[i]? = some p) :
    ∃ p', (processProjectile now dt pls proj).1[i]? = some p' ∧ p'.id = p.id ∧
      p'.spawnProtectionUntil = p.spawnProtectionUntil ∧
      LifeStep p.isAlive p'.isAlive
        (respawnCount (processProjectile now dt pls proj).2.2.2 p.id) := by
  unfold processProjectile
  split
  · exact ⟨p, hp, rfl, rfl, LifeStep_refl p.isAlive⟩
  · dsimp only
    split
    · split <;> exact ⟨p, hp, rfl, rfl, LifeStep_refl p.isAlive⟩
    · next victim hscan =>
      have hv := scanVictim_mem now _ pls victim hscan
      have hpmem : p ∈ pls := List.getElem?_mem hp
      have hidx : (applyHit proj.ownerId victim pls).1[i]? =
          some (applyHitFun proj.ownerId victim p) := by
        unfold applyHit
        dsimp only
        rw [List.getElem?_map, hp]
        rfl
      have hcount := respawnCount_applyHit proj.ownerId victim pls p.id
      have key : ∃ p', (applyHit proj.ownerId victim pls).1[i]? = some p' ∧
          p'.id = p.id ∧ p'.spawnProtectionUntil = p.spawnProtectionUntil ∧
          LifeStep p.isAlive p'.isAlive
            (respawnCount (applyHit proj.ownerId victim pls).2 p.id) := by
        refine ⟨applyHitFun proj.ownerId victim p, hidx, applyHitFun_id _ _ _,
          applyHitFun_prot _ _ _, ?_⟩
        rw [hcount]
        by_cases h1 : p.id = victim.id
        · have hpv : p = victim := eq_of_mem_of_id_eq hnd hpmem hv.1 h1
          subst hpv
          have hA : (applyHitFun proj.ownerId p p).isAlive =
              (if hitHealth p ≤ 0 then false else p.isAlive) := by
            unfold applyHitFun
            rw [if_pos rfl]
          rw [hA]
          by_cases hk : hitHealth p ≤ 0
          · rw [if_pos hk, if_pos ⟨hk, rfl⟩]
            unfold LifeStep
            exact ⟨by simp [hv.2.1], by simp⟩
          · rw [if_neg hk, if_neg (fun hc => hk hc.1)]
            exact LifeStep_refl p.isAlive
        · have hvid : ¬ victim.id = p.id := fun hc => h1 hc.symm
          rw [if_neg (fun hc => hvid hc.2)]
          have hoth := applyHitFun_other proj.ownerId victim p h1
          rw [hoth.2.1]
          exact LifeStep_refl p.isAlive
      split <;> exact key

/-- The combined per-player specification of a whole projectile tick, by
induction on the projectile list: ids and spawn-protection stamps are
preserved positionally, the health/alive invariant is preserved, each player's
alive flag makes one `LifeStep` whose respawn-schedule count matches, and a
spawn-protected player's combat fields are untouched. -/
theorem runProjectiles_spec (now dt : ℚ) :
    ∀ (projs : List ServerProjectile) (pls : List ServerPlayer),
      (pls.map ServerPlayer.id).Nodup → (∀ q ∈ pls, PlayerInv q) →
      ((runProjectiles now dt pls projs).1.map ServerPlayer.id =
        pls.map ServerPlayer.id) ∧
      (∀ q ∈ (runProjectiles now dt pls projs).1, PlayerInv q) ∧
      (∀ (i : ℕ) (p : ServerPlayer), pls[i]? = some p →
        ∃ p', (runProjectiles now dt pls projs).1[i]? = some p' ∧ p'.id = p.id ∧
          p'.spawnProtectionUntil = p.spawnProtectionUntil ∧
          LifeStep p.isAlive p'.isAlive
            (respawnCount (runProjectiles now dt pls projs).2.2 p.id) ∧
          (now < p.spawnProtectionUntil →
            p'.health = p.health ∧ p'.isAlive = p.isAlive ∧ p'.deaths = p.deaths)) := by
  intro projs
  induction projs with
  | nil =>
    intro pls hnd hinv
    refine ⟨rfl, hinv, fun i p hp => ⟨p, hp, rfl, rfl, ?_, fun _ => ⟨rfl, rfl, rfl⟩⟩⟩
    exact LifeStep_refl p.isAlive
  | cons proj rest ih =>
    intro pls hnd hinv
    have hnd1 : ((processProjectile now dt pls proj).1.map ServerPlayer.id).Nodup := by
      rw [processProjectile_map_id]
      exact hnd
    have hinv1 := processProjectile_inv now dt pls proj hnd hinv
    obtain ⟨ihmap, ihinv, ihlife⟩ := ih (processProjectile now dt pls proj).1 hnd1 hinv1
    have hrun : runProjectiles now dt pls (proj :: rest) =
        ((runProjectiles now dt (processProjectile now dt pls proj).1 rest).1,
         ((processProjectile now dt pls proj).2.1,
          (processProjectile now dt pls proj).2.2.1) ::
           (runProjectiles now dt (processProjectile now dt pls proj).1 rest).2.1,
         (processProjectile now dt pls proj).2.2.2 ++
           (runProjectiles now dt (processProjectile now dt pls proj).1 rest).2.2) := rfl
    rw [hrun]
    refine ⟨?_, ihinv, ?_⟩
    · dsimp only
      rw [ihmap, processProjectile_map_id]
    · intro i p hp
      obtain ⟨p1, hp1, hid1, hprot1, hlife1⟩ :=
        processProjectile_life now dt pls proj hnd i p hp
      obtain ⟨p2, hp2, hid2, hprot2, hlife2, hshield2⟩ := ihlife i p1 hp1
      refine ⟨p2, hp2, by rw [hid2, hid1], by rw [hprot2, hprot1], ?_, ?_⟩
      · dsimp only
        rw [respawnCount_append]
        rw [hid1] at hlife2
        exact LifeStep_comp hlife1 hlife2
      · intro hprot
        obtain ⟨q1, hq1, -, hqprot, hqh, hqa, hqd⟩ :=
          processProjectile_protected now dt pls proj hnd i p hp hprot
        rw [hp1] at hq1
        rw [Option.some.injEq] at hq1
        subst hq1
        have hprot1' : now < p1.spawnProtectionUntil := by rw [hqprot]; exact hprot
        obtain ⟨hh2, ha2, hd2⟩ := hshield2 hprot1'
        exact ⟨by rw [hh2, hqh], by rw [ha2, hqa], by rw [hd2, hqd]⟩

/-- The removal markings of one projectile step: the projectile always moves
by `velocity*dt` and loses `dt` lifetime; an expired projectile gets exactly
the expiry marking (collision and bounds checks skipped); otherwise the
markings are one of {}, {bounds}, {hit}, {hit, bounds} — the bounds check is
not skipped after a hit. -/
theorem processProjectile_log (now dt : ℚ) (pls : List ServerPlayer)
    (proj : ServerProjectile) :
    (processProjectile now dt pls proj).2.1.id = proj.id ∧
    (processProjectile now dt pls proj).2.1.lifetime = proj.lifetime - dt ∧
    ((processProjectile now dt pls proj).2.1.lifetime ≤ 0 →
      (processProjectile now dt pls proj).2.2.1 = [.expired]) ∧
    (0 < (processProjectile now dt pls proj).2.1.lifetime →
      (processProjectile now dt pls proj).2.2.1 = [] ∨
      (processProjectile now dt pls proj).2.2.1 = [.outOfBounds] ∨
      (∃ vid, (processProjectile now dt pls proj).2.2.1 = [.hitPlayer vid]) ∨
      (∃ vid, (processProjectile now dt pls proj).2.2.1 =
        [.hitPlayer vid, .outOfBounds])) := by
  unfold processProjectile
  split
  · next hexp => exact ⟨rfl, rfl, fun _ => rfl, fun hlt => absurd hexp (by simp [not_le.mpr hlt])⟩
  · next hexp =>
    dsimp only
    split
    · split
      · exact ⟨rfl, rfl, fun h0 => absurd h0 hexp, fun _ => Or.inr (Or.inl rfl)⟩
      · exact ⟨rfl, rfl, fun h0 => absurd h0 hexp, fun _ => Or.inl rfl⟩
    · next victim hscan =>
      split
      · exact ⟨rfl, rfl, fun h0 => absurd h0 hexp,
          fun _ => Or.inr (Or.inr (Or.inr ⟨victim.id, rfl⟩))⟩
      · exact ⟨rfl, rfl, fun h0 => absurd h0 hexp,
          fun _ => Or.inr (Or.inr (Or.inl ⟨victim.id, rfl⟩))⟩

/-- Per-projectile removal log of a whole tick, by induction: every projectile
of the tick appears exactly once, at its own position, with the marking shapes
of `processProjectile_log`. -/
theorem runProjectiles_log (now dt : ℚ) :
    ∀ (projs : List ServerProjectile) (pls : List ServerPlayer),
      (runProjectiles now dt pls projs).2.1.length = projs.length ∧
      (∀ (i : ℕ) (proj : ServerProjectile), projs[i]? = some proj →
        ∃ pc, (runProjectiles now dt pls projs).2.1[i]? = some pc ∧
          pc.1.id = proj.id ∧ pc.1.lifetime = proj.lifetime - dt ∧
          (pc.1.lifetime ≤ 0 → pc.2 = [.expired]) ∧
          (0 < pc.1.lifetime →
            pc.2 = [] ∨ pc.2 = [.outOfBounds] ∨
            (∃ vid, pc.2 = [.hitPlayer vid]) ∨
            (∃ vid, pc.2 = [.hitPlayer vid, .outOfBounds]))) := by
  intro projs
  induction projs with
  | nil => intro pls; exact ⟨rfl, by intro i proj hp; simp at hp⟩
  | cons proj rest ih =>
    intro pls
    obtain ⟨ihlen, ihlog⟩ := ih (processProjectile now dt pls proj).1
    have hrun : (runProjectiles now dt pls (proj :: rest)).2.1 =
        ((processProjectile now dt pls proj).2.1,
         (processProjectile now dt pls proj).2.2.1) ::
          (runProjectiles now dt (processProjectile now dt pls proj).1 rest).2.1 := rfl
    rw [hrun]
    refine ⟨by rw [List.length_cons, ihlen, List.length_cons], ?_⟩
    intro i pr hpr
    match i with
    | 0 =>
      rw [List.getElem?_cons_zero, Option.some.injEq] at hpr
      subst hpr
      obtain ⟨hid, hlt, hexp, hshapes⟩ := processProjectile_log now dt pls proj
      exact ⟨((processProjectile now dt pls proj).2.1,
        (processProjectile now dt pls proj).2.2.1), List.getElem?_cons_zero,
        hid, hlt, hexp, hshapes⟩
    | j + 1 =>
      rw [List.getElem?_cons_succ] at hpr
      obtain ⟨pc, hpc, h⟩ := ihlog j pr hpr
      rw [List.getElem?_cons_succ]
      exact ⟨pc, hpc, h⟩

/-- Spawn protection across a whole projectile tick (needs only id-uniqueness,
not the health invariant): a protected player's combat fields survive all
projectiles of the tick. -/
theorem runProjectiles_protected (now dt : ℚ) :
    ∀ (projs : List ServerProjectile) (pls : List ServerPlayer),
      (pls.map ServerPlayer.id).Nodup →
      ∀ (i : ℕ) (p : ServerPlayer), pls[i]? = some p →
        now < p.spawnProtectionUntil →
        ∃ p', (runProjectiles now dt pls projs).1[i]? = some p' ∧
          p'.id = p.id ∧ p'.spawnProtectionUntil = p.spawnProtectionUntil ∧
          p'.health = p.health ∧ p'.isAlive = p.isAlive ∧ p'.deaths = p.deaths := by
  intro projs
  induction projs with
  | nil => intro pls _ i p hp _; exact ⟨p, hp, rfl, rfl, rfl, rfl, rfl⟩
  | cons proj rest ih =>
    intro pls hnd i p hp hprot
    have hnd1 : ((processProjectile now dt pls proj).1.map ServerPlayer.id).Nodup := by
      rw [processProjectile_map_id]
      exact hnd
    obtain ⟨p1, hp1, hid1, hprot1, hh1, ha1, hd1⟩ :=
      processProjectile_protected now dt pls proj hnd i p hp hprot
    obtain ⟨p2, hp2, hid2, hprot2, hh2, ha2, hd2⟩ :=
      ih (processProjectile now dt pls proj).1 hnd1 i p1 hp1
        (by rw [hprot1]; exact hprot)
    exact ⟨p2, hp2, by rw [hid2, hid1], by rw [hprot2, hprot1],
      by rw [hh2, hh1], by rw [ha2, ha1], by rw [hd2, hd1]⟩

-- C5: spawn protection ---------------------------------------------------------

/-- C5: during projectile simulation, a player whose spawn-protection expiry
lies strictly in the future keeps health, alive flag and death count unchanged
for the whole tick — no projectile can damage it. -/
theorem spawn_protection_no_damage (now dt : ℚ) (pls : List ServerPlayer)
    (projs : List ServerProjectile) (hnd : (pls.map ServerPlayer.id).Nodup)
    (i : ℕ) (p : ServerPlayer) (hp : pls[i]? = some p)
    (hprot : now < p.spawnProtectionUntil) :
    ∃ p', (updateProjectiles now dt pls projs).players[i]? = some p' ∧
      p'.health = p.health ∧ p'.isAlive = p.isAlive ∧ p'.deaths = p.deaths := by
  obtain ⟨p', hp', -, -, hh, ha, hd⟩ :=
    runProjectiles_protected now dt projs pls hnd i p hp hprot
  exact ⟨p', hp', hh, ha, hd⟩

/-- Witness for `spawn_protection_no_damage`: player `plB` made spawn-protected
survives the tick of `projX` (which would otherwise hit it) untouched. -/
theorem spawn_protection_no_damage_witness :
    ∃ p', (updateProjectiles 10000 (1/30)
        [plA, { plB with spawnProtectionUntil := 20000 }] [projX]).players[1]? =
        some p' ∧
      p'.health = ({ plB with spawnProtectionUntil := 20000 } : ServerPlayer).health ∧
      p'.isAlive = ({ plB with spawnProtectionUntil := 20000 } : ServerPlayer).isAlive ∧
      p'.deaths = ({ plB with spawnProtectionUntil := 20000 } : ServerPlayer).deaths :=
  spawn_protection_no_damage 10000 (1/30)
    [plA, { plB with spawnProtectionUntil := 20000 }] [projX]
    (by simp [plA, plB]) 1 { plB with spawnProtectionUntil := 20000 } rfl
    (by norm_num [plB])

-- C4: projectile removal -------------------------------------------------------

/-- C4 (amended): every projectile of a tick appears exactly once in the
removal log, at its own position; it always loses exactly `dt` lifetime (a
strict decrease for `dt > 0`); when its lifetime reaches 0 it is marked for
removal with the expiry cause alone, skipping all further checks for the tick;
otherwise it is marked via a player hit and/or a bounds exit — the two checks
are not mutually exclusive, a projectile can be marked by both in one tick —
and the surviving projectile collection is exactly the unmarked projectiles
(marked ones are deleted once; duplicate markings delete the same key). -/
theorem projectile_removal_spec (now dt : ℚ) (pls : List ServerPlayer)
    (projs : List ServerProjectile) :
    (updateProjectiles now dt pls projs).removalLog.length = projs.length ∧
    (∀ (i : ℕ) (proj : ServerProjectile), projs[i]? = some proj →
      ∃ pc, (updateProjectiles now dt pls projs).removalLog[i]? = some pc ∧
        pc.1.id = proj.id ∧ pc.1.lifetime = proj.lifetime - dt ∧
        (0 < dt → pc.1.lifetime < proj.lifetime) ∧
        (pc.1.lifetime ≤ 0 → pc.2 = [.expired]) ∧
        (0 < pc.1.lifetime →
          pc.2 = [] ∨ pc.2 = [.outOfBounds] ∨
          (∃ vid, pc.2 = [.hitPlayer vid]) ∨
          (∃ vid, pc.2 = [.hitPlayer vid, .outOfBounds]))) ∧
    (updateProjectiles now dt pls projs).projectiles =
      ((updateProjectiles now dt pls projs).removalLog.filter
        (fun pc => pc.2 = [])).map Prod.fst := by
  obtain ⟨hlen, hlog⟩ := runProjectiles_log now dt projs pls
  refine ⟨hlen, ?_, rfl⟩
  intro i proj hi
  obtain ⟨pc, hpc, hid, hlt, hexp, hshapes⟩ := hlog i proj hi
  refine ⟨pc, hpc, hid, hlt, fun hdt => ?_, hexp, hshapes⟩
  rw [hlt]
  linarith

/-- C4 fails as stated: the projectile `projX` is marked for removal twice in
one tick, via two different causes — it hits player `"b"` and also exits the
arena bounds; the causes are not mutually exclusive. -/
theorem projectile_double_marking :
    (updateProjectiles 10000 (1/30) [plA, plB] [projX]).removalLog.map Prod.snd =
      [[RemovalCause.hitPlayer "b", RemovalCause.outOfBounds]] := by
  norm_num [updateProjectiles, runProjectiles, processProjectile, scanVictim,
    projectileHits, distSqToPlayerCapsule, projectileOutOfBounds, plA, plB,
    projX, PLAYER_HEIGHT, PROJECTILE_HITBOX_RADIUS, PLAYER_HITBOX_RADIUS,
    (show ¬ "b" = "a" by simp), (show ¬ "a" = "b" by simp)]

/-- Witness for `projectile_removal_spec`: the log entry of `projX` in the
double-marking tick. -/
theorem projectile_removal_spec_witness :
    ∃ pc, (updateProjectiles 10000 (1/30) [plA, plB] [projX]).removalLog[0]? =
        some pc ∧
      pc.1.id = projX.id ∧ pc.1.lifetime = projX.lifetime - 1/30 ∧
      (0 < (1/30 : ℚ) → pc.1.lifetime < projX.lifetime) ∧
      (pc.1.lifetime ≤ 0 → pc.2 = [.expired]) ∧
      (0 < pc.1.lifetime →
        pc.2 = [] ∨ pc.2 = [.outOfBounds] ∨
        (∃ vid, pc.2 = [.hitPlayer vid]) ∨
        (∃ vid, pc.2 = [.hitPlayer vid, .outOfBounds])) :=
  (projectile_removal_spec 10000 (1/30) [plA, plB] [projX]).2.1 0 projX rfl

-- C3: the health/alive invariant ------------------------------------------------

/-- C3: every session operation touching a player preserves the invariant
`health ∈ [0,100] ∧ (alive ↔ health > 0)` — join initializes it, movement
handling never touches health or the alive flag, the projectile tick preserves
it, and respawn restores it — and during a projectile tick each player's alive
flag flips true→false at most once, with exactly one respawn scheduled per
flip and none otherwise (a dead player is never revived by the tick). -/
theorem health_alive_invariants (now dt : ℚ) (pls : List ServerPlayer)
    (projs : List ServerProjectile) (hnd : (pls.map ServerPlayer.id).Nodup)
    (hinv : ∀ q ∈ pls, PlayerInv q) :
    (∀ (s : Session) (pid pname : String) (t : ℚ),
      (∀ q ∈ s.players, PlayerInv q) →
      ∀ q ∈ ((addPlayer s pid pname t).1).players, PlayerInv q) ∧
    (∀ (q : ServerPlayer) (u : PositionUpdate) (t : ℚ),
      (applyPositionUpdate q u t).health = q.health ∧
      (applyPositionUpdate q u t).isAlive = q.isAlive) ∧
    (∀ (q : ServerPlayer) (u : PositionUpdate) (t : ℚ),
      PlayerInv q → PlayerInv (applyPositionUpdate q u t)) ∧
    (∀ q ∈ (updateProjectiles now dt pls projs).players, PlayerInv q) ∧
    (∀ (i : ℕ) (p : ServerPlayer), pls[i]? = some p →
      ∃ p', (updateProjectiles now dt pls projs).players[i]? = some p' ∧
        p'.id = p.id ∧
        LifeStep p.isAlive p'.isAlive
          (respawnCount (updateProjectiles now dt pls projs).events p.id)) ∧
    (∀ (s : Session) (pid : String) (t : ℚ),
      (∀ q ∈ s.players, PlayerInv q) →
      ∀ q ∈ ((respawnPlayer s pid t).1).players, PlayerInv q) := by
  have hmove : ∀ (q : ServerPlayer) (u : PositionUpdate) (t : ℚ),
      (applyPositionUpdate q u t).health = q.health ∧
      (applyPositionUpdate q u t).isAlive = q.isAlive := by
    intro q u t
    unfold applyPositionUpdate
    by_cases h1 : MAX_UPDATE_INTERVAL < (t - q.lastUpdateTime) / 1000
    · rw [validateMovement_lag q u t h1]
      exact ⟨rfl, rfl⟩
    · by_cases h2 : movementRejected q u ((t - q.lastUpdateTime) / 1000)
      · rw [validateMovement_reject q u t h1 h2]
        exact ⟨rfl, rfl⟩
      · rw [validateMovement_accept q u t h1 h2]
        exact ⟨rfl, rfl⟩
  obtain ⟨-, hinvtick, hlife⟩ := runProjectiles_spec now dt projs pls hnd hinv
  refine ⟨?_, hmove, ?_, hinvtick, ?_, ?_⟩
  · intro s pid pname t hs q hq
    unfold addPlayer at hq
    dsimp only at hq
    rcases List.mem_append.mp hq with hq | hq
    · exact hs q hq
    · rw [List.mem_singleton] at hq
      subst hq
      exact ⟨by norm_num, by norm_num, by norm_num⟩
  · intro q u t hq
    obtain ⟨hh, ha⟩ := hmove q u t
    exact ⟨hh ▸ hq.1, hh ▸ hq.2.1, by rw [ha, hh]; exact hq.2.2⟩
  · intro i p hp
    obtain ⟨p', hp', hid, -, hstep, -⟩ := hlife i p hp
    exact ⟨p', hp', hid, hstep⟩
  · intro s pid t hs q hq
    unfold respawnPlayer at hq
    rcases hg : getPlayer s.players pid with - | pl
    · rw [hg] at hq
      exact hs q hq
    · rw [hg] at hq
      dsimp only at hq
      obtain ⟨q1, hq1, rfl⟩ := List.mem_map.mp hq
      obtain ⟨q0, hq0, rfl⟩ := List.mem_map.mp hq1
      have hinv0 := hs q0 hq0
      by_cases hid0 : q0.id = pid
      · rw [if_pos hid0]
        have hmid : PlayerInv
            ({ q0 with
               health := 100
               isAlive := true
               spawnProtectionUntil := t + SPAWN_PROTECTION_DURATION } :
              ServerPlayer) :=
          ⟨by norm_num, by norm_num, by norm_num⟩
        split_ifs <;> exact hmid
      · rw [if_neg hid0]
        split_ifs <;> exact hinv0

/-- Witness for `health_alive_invariants`: the lethal tick of `projY` against
the 25-health victim `plC` keeps every player's invariant and schedules
exactly one respawn for the flipped victim. -/
theorem health_alive_invariants_witness :
    (∀ q ∈ (updateProjectiles 10000 (1/30) [plA, plC] [projY]).players,
      PlayerInv q) ∧
    (∃ p', (updateProjectiles 10000 (1/30) [plA, plC] [projY]).players[1]? =
        some p' ∧
      p'.id = plC.id ∧
      LifeStep plC.isAlive p'.isAlive
        (respawnCount (updateProjectiles 10000 (1/30) [plA, plC] [projY]).events
          plC.id)) :=
  by
  have h := health_alive_invariants 10000 (1/30) [plA, plC] [projY]
    (by simp [plA, plC])
    (by
      intro q hq
      rcases List.mem_cons.mp hq with rfl | hq
      · exact ⟨by norm_num [plA], by norm_num [plA], by norm_num [plA]⟩
      · rw [List.mem_singleton] at hq
        subst hq
        exact ⟨by norm_num [plC], by norm_num [plC], by norm_num [plC]⟩)
  exact ⟨h.2.2.2.1, h.2.2.2.2.1 1 plC rfl⟩

end LastOfGuss

